import Mathlib

/-!
Verification development for the moving-transform aggregation core of
orange3-timeseries (`orangecontrib/timeseries/widgets/owmovingtransform.py`).

The data model, the aggregation catalog, the three aggregation engines
(sliding window, sequential blocks, time-period aggregation), the warning
logic and the commit dispatcher are embedded shallowly from the source.
Numeric cells are `Option ℚ` with `none` playing the role of NaN (missing).

The numeric reduction helpers (`windowed_func`, `moving_sum`, ...,
`truncated_date`, `utc_from_timestamp`, `Orange.data.util.get_unique_names`)
live in modules that are not part of this repository snapshot; those are
modelled from the specification and are marked as such in their doc
comments.  Everything else follows the widget source directly.
-/

set_option maxHeartbeats 1000000

/-- Kind of a column descriptor: Orange variables here are continuous or
discrete. -/
inductive VarKind where
  | continuous
  | discrete
deriving DecidableEq, Repr

/-- A column descriptor: name, kind, and the display precision
(`number_of_decimals`, only meaningful for continuous variables; Orange
defaults to 3). -/
structure Variable where
  name : String
  kind : VarKind
  decimals : Nat := 3
deriving DecidableEq, Repr

/-- A numeric cell; `none` models NaN (a missing value). -/
abbrev Cell := Option ℚ

/-- A column of data, stored column-major as in `data.X.T`. -/
abbrev Column := List Cell

/-- The values of a column that are defined (finite, non-missing). -/
def definedVals (xs : List Cell) : List ℚ := xs.filterMap id

/-- Modelled from the spec: the NaN-aware reduction wrapper used by the
aggregation helpers of `orangecontrib.timeseries.functions` (absent from
src/): missing values are ignored, and a window or segment whose values are
all missing reduces to missing. -/
def nanAware (f : List ℚ → ℚ) (xs : List Cell) : Cell :=
  let vs := definedVals xs
  if vs = [] then none else some (f vs)

/-- Insert a rational into a sorted list, keeping it sorted. -/
def insertSortedQ (x : ℚ) : List ℚ → List ℚ
  | [] => [x]
  | y :: ys => if x ≤ y then x :: y :: ys else y :: insertSortedQ x ys

/-- Insertion sort for rationals (ascending). -/
def sortQ (l : List ℚ) : List ℚ := l.foldr insertSortedQ []

/-- Sum of a list of rationals. -/
def qsum (l : List ℚ) : ℚ := l.sum

/-- Product of a list of rationals. -/
def qprod (l : List ℚ) : ℚ := l.prod

/-- Arithmetic mean of a nonempty list of rationals. -/
def qmean (l : List ℚ) : ℚ := l.sum / l.length

/-- Minimum of a list of rationals (0 on the empty list, which never occurs
under `nanAware`). -/
def qmin : List ℚ → ℚ
  | [] => 0
  | x :: xs => xs.foldl min x

/-- Maximum of a list of rationals. -/
def qmax : List ℚ → ℚ
  | [] => 0
  | x :: xs => xs.foldl max x

/-- Median: middle element of the sorted list, or the average of the two
middle elements for an even length. -/
def qmedian (l : List ℚ) : ℚ :=
  let s := sortQ l
  let n := s.length
  if n % 2 = 1 then s.getD (n / 2) 0
  else (s.getD (n / 2 - 1) 0 + s.getD (n / 2) 0) / 2

/-- Mode: the most frequent value; ties are broken towards the smallest
value (as `scipy.stats.mode` does). -/
def qmode (l : List ℚ) : ℚ :=
  let maxc := (l.map (fun v => l.count v)).foldl max 0
  ((sortQ l).find? (fun v => l.count v == maxc)).getD 0

/-- Population variance: mean squared deviation from the mean. -/
def qvar (l : List ℚ) : ℚ :=
  let μ := qmean l
  qmean (l.map (fun x => (x - μ) * (x - μ)))

/-- Modelled from the spec: standard deviation.  Its square root is not
representable in ℚ, so the variance stands in for it; no claim in this
development depends on the numeric value of this reduction. -/
def qstd (l : List ℚ) : ℚ := qvar l

/-- Modelled from the spec: harmonic mean (`scipy.stats.hmean`); 0 stands in
when a value is not positive (scipy rejects such input).  No claim depends
on its numeric value. -/
def qharmonic (l : List ℚ) : ℚ :=
  if l.all (fun v => decide (0 < v)) then
    (l.length : ℚ) / (l.map (fun v => 1 / v)).sum
  else 0

/-- Modelled from the spec: geometric mean (`scipy.stats.gmean`); its n-th
root is not representable in ℚ, so the plain product stands in.  No claim
depends on its numeric value. -/
def qgeometric (l : List ℚ) : ℚ := l.prod

/-- Count of defined values that are non-zero
(`np.sum((x != 0) & np.isfinite(x))`). -/
def countNonzero (xs : List Cell) : Cell :=
  some (((definedVals xs).countP (fun v => decide (v ≠ 0)) : Nat) : ℚ)

/-- Count of defined (finite) values (`np.sum(np.isfinite(x))`). -/
def countDefined (xs : List Cell) : Cell :=
  some (((definedVals xs).length : Nat) : ℚ)

/-- Number of windows of width `w` advancing by `step` over `n` rows:
`⌊(n − w)/step⌋ + 1`, and 0 when the column is shorter than the window. -/
def numWindows (n w step : Nat) : Nat :=
  if n < w then 0 else (n - w) / step + 1

/-- The successive windows of width `w`, advancing by `step`. -/
def windowSeq (col : List Cell) (w step : Nat) : List (List Cell) :=
  (List.range (numWindows col.length w step)).map
    (fun k => (col.drop (k * step)).take w)

/-- Modelled from the spec: `windowed_func` of
`orangecontrib.timeseries.functions` (absent from src/) maps a NaN-aware
reduction over every window of the given width advancing by the given
step. -/
def windowed_func (f : List Cell → Cell) (col : List Cell) (w step : Nat) :
    List Cell :=
  (windowSeq col w step).map f

/-- Modelled from the spec: linear moving average over one window — a
weighted mean with linearly growing weights, missing values ignored. -/
def linMAcell (window : List Cell) : Cell :=
  let pairs := window.enum.filterMap
    (fun p => p.2.map (fun v => (((p.1 + 1 : Nat) : ℚ), v)))
  if pairs = [] then none
  else some ((pairs.map (fun p => p.1 * p.2)).sum / (pairs.map Prod.fst).sum)

/-- Modelled from the spec: exponential moving average over one window — a
weighted mean with exponentially decaying weights `(1−α)^(n−1−i)`,
`α = 2/(n+1)`, missing values ignored. -/
def expMAcell (window : List Cell) : Cell :=
  let n := window.length
  let α : ℚ := 2 / ((n + 1 : Nat) : ℚ)
  let pairs := window.enum.filterMap
    (fun p => p.2.map (fun v => ((1 - α) ^ (n - 1 - p.1), v)))
  if pairs = [] then none
  else some ((pairs.map (fun p => p.1 * p.2)).sum / (pairs.map Prod.fst).sum)

/-- Modelled from the spec: `np.nancumsum` — the running sum over the whole
column with missing values treated as 0; every output entry is defined. -/
def nancumsum (col : List Cell) : List Cell :=
  (col.foldl
    (fun (acc : ℚ × List Cell) c =>
      let v := acc.1 + c.getD 0
      (v, acc.2 ++ [some v]))
    (0, [])).2

/-- Modelled from the spec: `np.nancumprod` — the running product over the
whole column with missing values treated as 1. -/
def nancumprod (col : List Cell) : List Cell :=
  (col.foldl
    (fun (acc : ℚ × List Cell) c =>
      let v := acc.1 * c.getD 1
      (v, acc.2 ++ [some v]))
    (1, [])).2

/-- An aggregation descriptor, mirroring the `AggDesc` dataclass of the
source: the windowed transform, the optional whole-segment reduction, the
optional cumulative transform, and the display flags.  `long_desc` stores
the resolved display name (the source computes it from `_long_desc` or
`short_desc.title()`). -/
structure AggDesc where
  short_desc : String
  transform : List Cell → Nat → Nat → List Cell
  block_transform : Option (List Cell → Cell)
  long_desc : String
  supports_discrete : Bool := false
  count_aggregate : Bool := false
  cumulative : Option (List Cell → List Cell) := none

/-- The aggregation catalog `AggOptions`, in the registration order of the
source (the order of the `AggDesc(...)` constructor calls, which populate
the shared dictionary). -/
def AggOptions : List (String × AggDesc) := [
  ("mean", { short_desc := "mean", transform := windowed_func (nanAware qmean),
             block_transform := some (nanAware qmean), long_desc := "Mean value" }),
  ("sum", { short_desc := "sum", transform := windowed_func (nanAware qsum),
            block_transform := some (nanAware qsum), long_desc := "Sum" }),
  ("product", { short_desc := "product", transform := windowed_func (nanAware qprod),
                block_transform := some (nanAware qprod), long_desc := "Product" }),
  ("min", { short_desc := "min", transform := windowed_func (nanAware qmin),
            block_transform := some (nanAware qmin), long_desc := "Minimum" }),
  ("max", { short_desc := "max", transform := windowed_func (nanAware qmax),
            block_transform := some (nanAware qmax), long_desc := "Maximum" }),
  ("span", { short_desc := "span",
             transform := windowed_func (nanAware (fun l => qmax l - qmin l)),
             block_transform := some (nanAware (fun l => qmax l - qmin l)),
             long_desc := "Span" }),
  ("median", { short_desc := "median", transform := windowed_func (nanAware qmedian),
               block_transform := some (nanAware qmedian), long_desc := "Median" }),
  ("mode", { short_desc := "mode", transform := windowed_func (nanAware qmode),
             block_transform := some (nanAware qmode), long_desc := "Mode",
             supports_discrete := true }),
  ("std", { short_desc := "std", transform := windowed_func (nanAware qstd),
            block_transform := some (nanAware qstd),
            long_desc := "Standard deviation" }),
  ("var", { short_desc := "var", transform := windowed_func (nanAware qvar),
            block_transform := some (nanAware qvar), long_desc := "Variance" }),
  ("lin. MA", { short_desc := "lin. MA", transform := windowed_func linMAcell,
                block_transform := none, long_desc := "Linear MA" }),
  ("exp. MA", { short_desc := "exp. MA", transform := windowed_func expMAcell,
                block_transform := none, long_desc := "Exponential MA" }),
  ("harmonic", { short_desc := "harmonic", transform := windowed_func (nanAware qharmonic),
                 block_transform := some (nanAware qharmonic),
                 long_desc := "Harmonic mean" }),
  ("geometric", { short_desc := "geometric", transform := windowed_func (nanAware qgeometric),
                  block_transform := some (nanAware qgeometric),
                  long_desc := "Geometric mean" }),
  ("non-zero", { short_desc := "non-zero", transform := windowed_func countNonzero,
                 block_transform := some countNonzero, long_desc := "Non-zero count",
                 supports_discrete := true, count_aggregate := true }),
  ("defined", { short_desc := "defined", transform := windowed_func countDefined,
                block_transform := some countDefined, long_desc := "Defined count",
                supports_discrete := true, count_aggregate := true }),
  ("cumsum", { short_desc := "cumsum", transform := windowed_func (nanAware qsum),
               block_transform := none, long_desc := "Cumulative sum",
               cumulative := some nancumsum }),
  ("cumprod", { short_desc := "cumprod", transform := windowed_func (nanAware qprod),
                block_transform := none, long_desc := "Cumulative product",
                cumulative := some nancumprod })]

/-- The registration order of aggregation kind keys (dictionary iteration
order of `AggOptions`). -/
def aggOrder : List String := AggOptions.map Prod.fst

/-- Fallback descriptor for a key absent from the catalog (the source would
raise a `KeyError`; the engines only ever look up registered keys). -/
def defaultAggDesc : AggDesc :=
  { short_desc := "", transform := fun _ _ _ => [],
    block_transform := some (fun _ => none), long_desc := "" }

/-- Dictionary lookup `AggOptions[t]`. -/
def aggOf (t : String) : AggDesc :=
  ((AggOptions.find? (fun p => p.1 == t)).map Prod.snd).getD defaultAggDesc

/-- A calendar period descriptor, mirroring the `PeriodDesc` named tuple of
the source. -/
structure PeriodDesc where
  struct_index : Nat
  periodic : Bool
  attr_name : String
  value_as_period : Bool := true
  names : Option (List String) := none
  names_option : Option String := none
  value_offset : Int := 0
deriving DecidableEq, Repr

/-- English month names (`calendar.month_name[1:]`). -/
def monthNames : List String :=
  ["January", "February", "March", "April", "May", "June", "July",
   "August", "September", "October", "November", "December"]

/-- English day names (`calendar.day_name`, Monday first). -/
def dayNames : List String :=
  ["Monday", "Tuesday", "Wednesday", "Thursday", "Friday", "Saturday",
   "Sunday"]

/-- The period catalog `PeriodOptions` of the source, in declaration
order. -/
def PeriodOptions : List (String × PeriodDesc) := [
  ("Years", { struct_index := 0, periodic := false, attr_name := "Time" }),
  ("Months", { struct_index := 1, periodic := false, attr_name := "Time" }),
  ("Days", { struct_index := 2, periodic := false, attr_name := "Time" }),
  ("Hours", { struct_index := 3, periodic := false, attr_name := "Time" }),
  ("Minutes", { struct_index := 4, periodic := false, attr_name := "Time" }),
  ("Seconds", { struct_index := 5, periodic := false, attr_name := "Time" }),
  ("Month of year", { struct_index := 1, periodic := true, attr_name := "Month",
                      names := some monthNames,
                      names_option := some "Use month names",
                      value_offset := -1 }),
  ("Day of year", { struct_index := 2, periodic := true, attr_name := "Day",
                    value_as_period := false }),
  ("Day of month", { struct_index := 2, periodic := true, attr_name := "Day" }),
  ("Day of week", { struct_index := 2, periodic := true, attr_name := "Day",
                    value_as_period := false,
                    names_option := some "Use day names",
                    names := some dayNames }),
  ("Hour of day", { struct_index := 3, periodic := true, attr_name := "Hour" })]

/-- Dictionary lookup `PeriodOptions[pw]` (the widget setting always holds a
registered key; `Years` is the fallback). -/
def periodOf (pw : String) : PeriodDesc :=
  ((PeriodOptions.find? (fun p => p.1 == pw)).map Prod.snd).getD
    { struct_index := 0, periodic := false, attr_name := "Time" }

/-- Modelled from the spec: proleptic-Gregorian civil date (year, month,
day) of a day count relative to 1970-01-01, for the UTC calendar
decomposition `decompose(epoch_seconds)` that the source obtains from the
host date utilities (absent from src/). -/
def civilFromDays (z0 : Int) : Int × Int × Int :=
  let z := z0 + 719468
  let era := Int.fdiv z 146097
  let doe := z - era * 146097
  let yoe := Int.fdiv (doe - Int.fdiv doe 1460 + Int.fdiv doe 36524 -
    Int.fdiv doe 146096) 365
  let y := yoe + era * 400
  let doy := doe - (365 * yoe + Int.fdiv yoe 4 - Int.fdiv yoe 100)
  let mp := Int.fdiv (5 * doy + 2) 153
  let d := doy - Int.fdiv (153 * mp + 2) 5 + 1
  let m := mp + (if mp < 10 then 3 else -9)
  (y + (if m ≤ 2 then 1 else 0), m, d)

/-- Modelled from the spec: inverse of `civilFromDays` — the day count of a
civil date, used to re-encode a truncated calendar representation
(`calendar.timegm`). -/
def daysFromCivil (y0 m d : Int) : Int :=
  let y := y0 - (if m ≤ 2 then 1 else 0)
  let era := Int.fdiv y 400
  let yoe := y - era * 400
  let mp := m + (if m > 2 then -3 else 9)
  let doy := Int.fdiv (153 * mp + 2) 5 + d - 1
  let doe := yoe * 365 + Int.fdiv yoe 4 - Int.fdiv yoe 100 + doy
  era * 146097 + doe - 719468

/-- A UTC calendar representation of a timestamp. -/
structure CalRep where
  year : Int
  month : Int
  day : Int
  hour : Int
  minute : Int
  second : Int
deriving DecidableEq, Repr

/-- Modelled from the spec: `decompose(epoch_seconds)` over UTC
(`utc_from_timestamp(x).timetuple()` in the source). -/
def decompose (epoch : Int) : CalRep :=
  let days := Int.fdiv epoch 86400
  let rem := Int.fmod epoch 86400
  let c := civilFromDays days
  { year := c.1, month := c.2.1, day := c.2.2,
    hour := Int.fdiv rem 3600,
    minute := Int.fdiv (Int.fmod rem 3600) 60,
    second := Int.fmod rem 60 }

/-- The `struct_time` field at an index (0 = year, 1 = month, 2 = day,
3 = hour, 4 = minute, 5 = second), as `timetuple()[period.struct_index]`. -/
def structField (c : CalRep) : Nat → Int
  | 0 => c.year
  | 1 => c.month
  | 2 => c.day
  | 3 => c.hour
  | 4 => c.minute
  | _ => c.second

/-- Modelled from the spec: Python `datetime.weekday()` over UTC
(Monday = 0); day 0 of the epoch was a Thursday. -/
def weekdayOf (epoch : Int) : Int :=
  Int.fmod (Int.fdiv epoch 86400 + 3) 7

/-- Gregorian leap-year test. -/
def isLeap (y : Int) : Bool :=
  (Int.fmod y 4 == 0 && Int.fmod y 100 != 0) || Int.fmod y 400 == 0

/-- Days before the first of a month (1-based month), with the leap
adjustment. -/
def daysBeforeMonth (m : Int) (leap : Bool) : Int :=
  (([0, 31, 59, 90, 120, 151, 181, 212, 243, 273, 304, 334].getD
      (m.toNat - 1) 0 : Int)) + (if leap && m > 2 then 1 else 0)

/-- Modelled from the spec: the 1-based ordinal day within the year
(`d.toordinal() - date(d.year, 1, 1).toordinal() + 1`). -/
def ydayOf (epoch : Int) : Int :=
  let c := decompose epoch
  daysBeforeMonth c.month (isLeap c.year) + c.day

/-- Modelled from the spec: `truncated_date` of
`orangecontrib.timeseries.functions` (absent from src/) zeroes out every
calendar field finer than the one at `struct_index`, and
`calendar.timegm(x.timetuple())` re-encodes the result as an epoch value. -/
def truncEpoch (epoch : Int) (ind : Nat) : Int :=
  let c := decompose epoch
  let m := if 1 ≤ ind then c.month else 1
  let d := if 2 ≤ ind then c.day else 1
  let h := if 3 ≤ ind then c.hour else 0
  let mi := if 4 ≤ ind then c.minute else 0
  let s := if 5 ≤ ind then c.second else 0
  daysFromCivil c.year m d * 86400 + h * 3600 + mi * 60 + s

/-- A numbered disambiguation candidate, `base (k)`. -/
def numberedName (base : String) (k : Nat) : String :=
  base ++ " (" ++ toString k ++ ")"

/-- First numbered candidate that is free in `used` (fuelled search; the
fuel always suffices because at most `used.length` candidates collide). -/
def firstFreeName (used : List String) (base : String) : Nat → Nat → String
  | 0, k => numberedName base k
  | fuel + 1, k =>
    if numberedName base k ∈ used then firstFreeName used base fuel (k + 1)
    else numberedName base k

/-- A name distinct from every entry of `used`: the base itself when free,
otherwise the first free numbered variant. -/
def uniqueName (used : List String) (base : String) : String :=
  if base ∈ used then firstFreeName used base (used.length + 1) 1 else base

/-- Modelled from the spec: the NameAllocator
(`Orange.data.util.get_unique_names`, absent from src/) — a deterministic
renaming that makes every proposed name distinct from every existing name
and from every other proposed name, preserving non-colliding spellings. -/
def get_unique_names (existing : List String) (proposed : List String) :
    List String :=
  proposed.foldl (fun acc p => acc ++ [uniqueName (existing ++ acc) p]) []

/-- Modelled from the spec: `Orange.data.util.get_unique_names_duplicates`
(absent from src/) — deduplication of a name list against itself only. -/
def get_unique_names_duplicates (proposed : List String) : List String :=
  get_unique_names [] proposed

/-- The input table: column descriptors split into attributes, class
variables (targets) and metas; the numeric data column-major (`data.X.T`,
`data.Y`); the designated time variable with its raw epoch column; and the
row count `len(data)`. -/
structure Table where
  attrs : List Variable
  class_vars : List Variable
  metas : List Variable
  X : List Column
  Y : List Column
  timeVar : Option Variable
  timeCol : List Int
  nRows : Nat

/-- All variable names of a domain (attributes, class variables and metas),
the namespace that `get_unique_names(domain, names)` deduplicates
against. -/
def domainNames (d : Table) : List String :=
  (d.attrs ++ d.class_vars ++ d.metas).map Variable.name

/-- Lookup `data.get_column_view(attr)`: the data column of a variable, looked up
among the attributes and then the class variables. -/
def Table.getColumn (d : Table) (v : Variable) : Column :=
  match (d.attrs.zip d.X).find? (fun p => decide (p.1 = v)) with
  | some p => p.2
  | none =>
    match (d.class_vars.zip d.Y).find? (fun p => decide (p.1 = v)) with
    | some p => p.2
    | none => []

/-- The selection state of `TransformationsModel`: the offered variables and,
parallel to them, the set (unordered) of requested aggregation-kind keys per
variable. -/
structure TransModel where
  vars : List Variable
  transformations : List (List String)

/-- Model of `TransformationsModel.get_transformations`: the requested kinds of one
variable, iterated in the registration order of `AggOptions` rather than in
insertion order. -/
def TransModel.get_transformations (m : TransModel) (i : Nat) : List String :=
  aggOrder.filter (fun t => decide (t ∈ m.transformations.getD i []))

/-- The variables that `set_data` offers for selection: every discrete
variable and every continuous variable other than the designated time
variable. -/
def set_data_vars (data : Table) : List Variable :=
  (data.attrs ++ data.class_vars).filter
    (fun v => decide (v.kind = VarKind.discrete ∨
      (v.kind = VarKind.continuous ∧ some v ≠ data.timeVar)))

/-- Position of a variable in the model list (`model.indexOf(attr)`). -/
def indexOfVar : List Variable → Variable → Nat
  | [], _ => 0
  | v :: rest, a => if a = v then 0 else indexOfVar rest a + 1

/-- The structured warnings of the widget (`Warning.clear()` resets them all
before each commit).  `inapplicable_aggregations` carries the display names
of the skipped kinds, in catalog registration order, when set. -/
structure Warnings where
  no_aggregations : Bool := false
  inapplicable_aggregations : Option (List String) := none
  window_to_large : Bool := false
  block_to_large : Bool := false
deriving DecidableEq, Repr

/-- The cleared warning state. -/
def noWarnings : Warnings := {}

/-- Membership-preserving insertion, modelling Python `set.add` on the
`inapplicable` accumulator. -/
def insertAbsent (l : List String) (x : String) : List String :=
  if x ∈ l then l else l ++ [x]

/-- The display names of `inapplicable` listed in catalog registration order,
as the warning message builds them
(`agg.long_desc for agg in AggOptions.values() if agg.long_desc in inapplicable`). -/
def canonicalInapplicable (inapplicable : List String) : List String :=
  AggOptions.filterMap
    (fun p => if p.2.long_desc ∈ inapplicable then some p.2.long_desc else none)

/-- Model of `_set_warnings(columns, inapplicable)`: raise the inapplicable warning
when the set is nonempty (naming the kinds in registration order) and the
no-aggregations warning when the column list is empty.  `w` is the warning
state already accumulated (the window-width warning for sliding windows). -/
def set_warnings_upd (w : Warnings) (columns : List Column)
    (inapplicable : Option (List String)) : Warnings :=
  let w :=
    match inapplicable with
    | some l =>
      if l ≠ [] then
        { w with inapplicable_aggregations := some (canonicalInapplicable l) }
      else w
    | none => w
  if columns = [] then { w with no_aggregations := true } else w

/-- The produced output table: the new attribute descriptors with their
columns, plus the class/meta part carried over when original rows are
kept. -/
structure OutTable where
  attributes : List Variable
  columns : List Column
  class_vars : List Variable := []
  Y : List Column := []
  metas : List Variable := []
deriving DecidableEq, Repr

/-- Row-retention policy of the sliding-window engine
(`DiscardOriginal, KeepComplete, KeepAll`). -/
inductive Keep where
  | DiscardOriginal
  | KeepComplete
  | KeepAll
deriving DecidableEq, Repr

/-- Reference-row policy of the sequential-block engine
(`DiscardOriginal, KeepFirst, KeepMiddle, KeepLast`). -/
inductive Ref where
  | DiscardOriginal
  | KeepFirst
  | KeepMiddle
  | KeepLast
deriving DecidableEq, Repr

/-- The aggregation method (`SlidingWindow, SequentialBlocks, TimePeriods`). -/
inductive Method where
  | SlidingWindow
  | SequentialBlocks
  | TimePeriods
deriving DecidableEq, Repr

/-- Model of `_var_for_agg(attr, agg, names)` with the name already drawn from the
iterator: count aggregates always yield a fresh continuous variable with
zero decimals; other aggregates copy the source variable under the new
name. -/
def _var_for_agg (attr : Variable) (agg : AggDesc) (name : String) : Variable :=
  if agg.count_aggregate then
    { name := name, kind := VarKind.continuous, decimals := 0 }
  else { attr with name := name }

/-- Accumulator of the sliding-window loop: the remaining fresh names (the
`names` iterator) and the attribute/column lists under construction. -/
structure AggState where
  names : List String
  attributes : List Variable
  columns : List Column
deriving Repr

/-- The aggregate column for one (variable, kind) pair in the sliding-window
engine: the cumulative transform over the whole column when all rows are
kept and the kind has one, otherwise the windowed transform at step 1,
head-padded with `window_width − 1` missing values when all rows are
kept. -/
def swAggColumn (wd : Nat) (keep : Keep) (agg : AggDesc) (column : Column) :
    Column :=
  if agg.cumulative.isSome ∧ keep = Keep.KeepAll then
    (agg.cumulative.getD id) column
  else
    let c := agg.transform column wd 1
    if keep = Keep.KeepAll then List.replicate (wd - 1) (none : Cell) ++ c
    else c

/-- One iteration of the `add_aggregates` loop of `_compute_sliding_window`:
append the descriptor (named from the iterator) and the aggregate column of
one requested kind. -/
def swStep (wd : Nat) (keep : Keep) (attr : Variable) (column : Column)
    (st : AggState) (t : String) : AggState :=
  let agg := aggOf t
  { names := st.names.tail,
    attributes := st.attributes ++ [_var_for_agg attr agg (st.names.headD "")],
    columns := st.columns ++ [swAggColumn wd keep agg column] }

/-- Model of `add_aggregates` of `_compute_sliding_window`: skip variables not offered
by the model (the time variable), and append one new descriptor and one
aggregate column per requested kind, drawing names from the iterator. -/
def addAggregatesSW (vars : List Variable) (gt : Nat → List String)
    (wd : Nat) (keep : Keep) (attr : Variable) (column : Column)
    (st : AggState) : AggState :=
  if attr ∈ vars then
    (gt (indexOfVar vars attr)).foldl (swStep wd keep attr column) st
  else st

/-- The row slice applied to retained original columns in the sliding-window
engine: `slice(window_width − 1, None)` under KeepComplete, everything under
KeepAll (the Discard case appends no original columns). -/
def swOriginalSlice (wd : Nat) (keep : Keep) (column : Column) : Column :=
  match keep with
  | Keep.KeepComplete => column.drop (wd - 1)
  | _ => column

/-- The raw proposed output names of the sliding-window engine:
`"<variable> (<kind>)"` over the model variables and their requested kinds. -/
def swRawNames (vars : List Variable) (gt : Nat → List String) : List String :=
  vars.enum.flatMap
    (fun p => (gt p.1).map (fun t => p.2.name ++ " (" ++ t ++ ")"))

/-- One iteration of the main attribute loop of `_compute_sliding_window`:
keep the (sliced) original column unless originals are discarded, then add
the aggregates of the variable. -/
def swAttrStep (vars : List Variable) (gt : Nat → List String) (wd : Nat)
    (keep : Keep) (st : AggState) (p : Variable × Column) : AggState :=
  let st :=
    if keep = Keep.DiscardOriginal then st
    else { st with attributes := st.attributes ++ [p.1],
                   columns := st.columns ++ [swOriginalSlice wd keep p.2] }
  addAggregatesSW vars gt wd keep p.1 p.2 st

/-- One iteration of the class-variable loop of `_compute_sliding_window`:
only the aggregates are added. -/
def swClassStep (vars : List Variable) (gt : Nat → List String) (wd : Nat)
    (keep : Keep) (st : AggState) (p : Variable × Column) : AggState :=
  addAggregatesSW vars gt wd keep p.1 p.2 st

/-- The final state of the sliding-window engine loop: original columns
(unless discarded) interleaved with aggregate columns over the attributes,
then aggregate columns over the class variables. -/
def slidingState (vars : List Variable) (gt : Nat → List String)
    (data : Table) (wd : Nat) (keep : Keep) : AggState :=
  let discard := keep = Keep.DiscardOriginal
  let rawNames := swRawNames vars gt
  let names :=
    if discard then get_unique_names [] rawNames
    else get_unique_names (domainNames data) rawNames
  let st1 := (data.attrs.zip data.X).foldl (swAttrStep vars gt wd keep)
    { names := names, attributes := [], columns := [] }
  (data.class_vars.zip data.Y).foldl (swClassStep vars gt wd keep) st1

/-- Core of `_compute_sliding_window`, parameterised over the model state it reads
(the offered variables and the per-variable requested kinds): warn when the
window exceeds the row count, build the columns, set the warnings, and
return no output exactly when the column list is empty. -/
def slidingCore (vars : List Variable) (gt : Nat → List String)
    (data : Table) (wd : Nat) (keep : Keep) : Option OutTable × Warnings :=
  let discard := keep = Keep.DiscardOriginal
  let st := slidingState vars gt data wd keep
  let w := set_warnings_upd
    { noWarnings with window_to_large := decide (data.nRows < wd) }
    st.columns none
  if st.columns = [] then (none, w)
  else if discard then
    (some { attributes := st.attributes, columns := st.columns }, w)
  else
    (some { attributes := st.attributes, columns := st.columns,
            class_vars := data.class_vars,
            Y := data.Y.map (swOriginalSlice wd keep),
            metas := data.metas }, w)

/-- Wrapper for `_compute_sliding_window` as invoked by `commit`, reading the widget
model. -/
def _compute_sliding_window (data : Table) (m : TransModel) (wd : Nat)
    (keep : Keep) : Option OutTable × Warnings :=
  slidingCore m.vars m.get_transformations data wd keep

/-- A Python slice with a non-negative start, an optional (possibly
negative) stop and a positive step, as used by the sequential-block row
selection. -/
structure PySlice where
  start : Nat
  stop : Option Int
  step : Nat
deriving DecidableEq, Repr

/-- The indices a Python slice selects from a sequence of length `n`
(positive step): start clamped to `n`; an absent stop means `n`; a negative
stop counts from the end and clamps at 0; then every `step`-th index below
the stop. -/
def PySlice.indices (s : PySlice) (n : Nat) : List Nat :=
  let lo := min s.start n
  let hi : Nat :=
    match s.stop with
    | none => n
    | some v => if v < 0 then ((n : Int) + v).toNat else min v.toNat n
  let count := if lo < hi then (hi - lo - 1) / s.step + 1 else 0
  (List.range count).map (fun k => lo + k * s.step)

/-- Apply a Python slice to a list. -/
def applySlice (s : PySlice) (c : List α) : List α :=
  (s.indices c.length).filterMap (fun i => c.get? i)

/-- The reference-row slice of `_compute_sequential_blocks`:
`Discard → [0:0]`, `First → [0:-(w-1):w]`, `Middle → [w//2:-(w-1-w//2):w]`,
`Last → [w-1::w]`. -/
def blockRetainSlice (width : Nat) (ref : Ref) : PySlice :=
  match ref with
  | Ref.DiscardOriginal => { start := 0, stop := some 0, step := 1 }
  | Ref.KeepFirst =>
    { start := 0, stop := some (-((width : Int) - 1)), step := width }
  | Ref.KeepMiddle =>
    { start := width / 2,
      stop := some (-((width : Int) - 1 - (width / 2 : Nat))), step := width }
  | Ref.KeepLast => { start := width - 1, stop := none, step := width }

/-- Accumulator of the block and period loops: like `AggState` with the
`inapplicable` set of skipped display names. -/
structure BlkState where
  names : List String
  attributes : List Variable
  columns : List Column
  inapplicable : List String
deriving Repr

/-- One iteration of the `add_aggregates` loop of
`_compute_sequential_blocks`: a kind without a whole-segment reduction is
recorded as inapplicable and skipped; an applicable kind appends
`agg.transform(column, width, width)` — the windowed transform stepping by a
whole block. -/
def blkStep (width : Nat) (attr : Variable) (column : Column) (st : BlkState)
    (t : String) : BlkState :=
  let agg := aggOf t
  if agg.block_transform.isNone then
    { st with inapplicable := insertAbsent st.inapplicable agg.long_desc }
  else
    { st with
      names := st.names.tail,
      attributes := st.attributes ++ [_var_for_agg attr agg (st.names.headD "")],
      columns := st.columns ++ [agg.transform column width width] }

/-- Model of `add_aggregates` of `_compute_sequential_blocks`: skip variables not
offered by the model, record kinds without a whole-segment reduction as
inapplicable, and append one block-aggregate column per applicable kind. -/
def addAggregatesBlk (vars : List Variable) (gt : Nat → List String)
    (width : Nat) (attr : Variable) (column : Column) (st : BlkState) :
    BlkState :=
  if attr ∈ vars then
    (gt (indexOfVar vars attr)).foldl (blkStep width attr column) st
  else st

/-- Model of `_names_for_blocked_aggregation`: the proposed names (preceded by the
period-key and instance-count names in time-period mode) restricted to kinds
with a whole-segment reduction, deduplicated against the input domain when
sequential blocks keep a reference row and against themselves otherwise. -/
def _names_for_blocked_aggregation (vars : List Variable)
    (gt : Nat → List String) (data : Table) (method : Method)
    (period_width : String) (ref : Ref) : List String :=
  let base := if method = Method.TimePeriods then
    [period_width, "Instance count"] else []
  let raw := base ++ vars.enum.flatMap
    (fun p => (gt p.1).filterMap
      (fun t => if (aggOf t).block_transform.isSome then
        some (p.2.name ++ " (" ++ t ++ ")") else none))
  if method = Method.SequentialBlocks ∧ ref ≠ Ref.DiscardOriginal then
    get_unique_names (domainNames data) raw
  else get_unique_names_duplicates raw

/-- One iteration of the main attribute loop of
`_compute_sequential_blocks`: keep the representative rows of the original
column unless originals are discarded, then add the block aggregates of the
variable. -/
def blkAttrStep (vars : List Variable) (gt : Nat → List String) (width : Nat)
    (ref : Ref) (st : BlkState) (p : Variable × Column) : BlkState :=
  let st :=
    if ref ≠ Ref.DiscardOriginal then
      { st with attributes := st.attributes ++ [p.1],
                columns := st.columns ++
                  [applySlice (blockRetainSlice width ref) p.2] }
    else st
  addAggregatesBlk vars gt width p.1 p.2 st

/-- One iteration of the class-variable loop of
`_compute_sequential_blocks`: only the block aggregates are added, the
column being fetched by `get_column_view`. -/
def blkClassStep (vars : List Variable) (gt : Nat → List String) (width : Nat)
    (data : Table) (st : BlkState) (attr : Variable) : BlkState :=
  addAggregatesBlk vars gt width attr (data.getColumn attr) st

/-- The final state of the sequential-block loop: retained representative
rows of the original attribute columns (unless discarded) interleaved with
block aggregates over the attributes, then block aggregates over the class
variables. -/
def blocksState (vars : List Variable) (gt : Nat → List String)
    (data : Table) (width : Nat) (ref : Ref) : BlkState :=
  let names := _names_for_blocked_aggregation vars gt data
    Method.SequentialBlocks "" ref
  let st1 := (data.attrs.zip data.X).foldl (blkAttrStep vars gt width ref)
    { names := names, attributes := [], columns := [], inapplicable := [] }
  data.class_vars.foldl (blkClassStep vars gt width data) st1

/-- Core of `_compute_sequential_blocks`, parameterised over the model state: warn
and bail out when the block exceeds the row count, otherwise build the
columns, set the warnings, and return no output exactly when the column list
is empty. -/
def blocksCore (vars : List Variable) (gt : Nat → List String)
    (data : Table) (width : Nat) (ref : Ref) : Option OutTable × Warnings :=
  if data.nRows < width then
    (none, { noWarnings with block_to_large := true })
  else
    let st := blocksState vars gt data width ref
    let w := set_warnings_upd noWarnings st.columns (some st.inapplicable)
    if st.columns = [] then (none, w)
    else if ref = Ref.DiscardOriginal then
      (some { attributes := st.attributes, columns := st.columns }, w)
    else
      (some { attributes := st.attributes, columns := st.columns,
              class_vars := data.class_vars,
              Y := data.Y.map (applySlice (blockRetainSlice width ref)),
              metas := data.metas }, w)

/-- Wrapper for `_compute_sequential_blocks` as invoked by `commit`. -/
def _compute_sequential_blocks (data : Table) (m : TransModel) (width : Nat)
    (ref : Ref) : Option OutTable × Warnings :=
  blocksCore m.vars m.get_transformations data width ref

/-- The per-row grouping key of the period-aggregation engine: for periodic
descriptors the raw calendar field (or the weekday / ordinal-day variants)
plus the value offset; for non-periodic descriptors the timestamp truncated
to the configured granularity. -/
def periodKeyFun (pw : String) (e : Int) : Int :=
  let period := periodOf pw
  if period.periodic then
    (if period.value_as_period then structField (decompose e) period.struct_index
     else if pw = "Day of week" then weekdayOf e
     else if pw = "Day of year" then ydayOf e
     else structField (decompose e) period.struct_index) + period.value_offset
  else truncEpoch e period.struct_index

/-- The grouping keys, one per source row. -/
def periodTimes (data : Table) (pw : String) : List Int :=
  data.timeCol.map (periodKeyFun pw)

/-- Insert an integer into a sorted list, keeping it sorted. -/
def insertSortedZ (x : Int) : List Int → List Int
  | [] => [x]
  | y :: ys => if x ≤ y then x :: y :: ys else y :: insertSortedZ x ys

/-- The distinct values of a list in ascending order, as the first component
of `np.unique`. -/
def uniqueSorted (xs : List Int) : List Int :=
  (xs.foldr insertSortedZ []).dedup

/-- Position of a value among the sorted distinct values. -/
def indexOfZ : List Int → Int → Nat
  | [], _ => 0
  | v :: rest, a => if a = v then 0 else indexOfZ rest a + 1

/-- Model of `return_inverse` of `np.unique`: for every input value, the index of its
group among the sorted distinct values. -/
def inverseIndices (xs : List Int) : List Nat :=
  xs.map (indexOfZ (uniqueSorted xs))

/-- Model of `return_counts` of `np.unique`: the multiplicity of every distinct value,
in ascending value order. -/
def countsOf (xs : List Int) : List Nat :=
  (uniqueSorted xs).map (fun p => xs.count p)

/-- The rows of a column that fall into group `k`
(`column[period_indices == k]`). -/
def groupRows (column : Column) (inv : List Nat) (k : Nat) : Column :=
  (column.zip inv).filterMap
    (fun p => if p.2 = k then some p.1 else none)

/-- The period-key column descriptor: a categorical variable with the
descriptor labels when present and enabled, a plain numeric variable
otherwise, and a renamed copy of the time variable for truncating
(non-periodic) descriptors. -/
def periodHeadVar (data : Table) (period : PeriodDesc) (use_names : Bool)
    (name : String) : Variable :=
  if period.periodic then
    match period.names with
    | some _ =>
      if use_names then { name := name, kind := VarKind.discrete }
      else { name := name, kind := VarKind.continuous }
    | none => { name := name, kind := VarKind.continuous }
  else
    { (data.timeVar.getD { name := "Time", kind := VarKind.continuous })
      with name := name }

/-- One aggregate column of the period-aggregation engine: the whole-segment
reduction of one variable over the rows of every group. -/
def periodAggColumn (data : Table) (nPeriods : Nat) (inv : List Nat)
    (agg : AggDesc) (attr : Variable) : Column :=
  (List.range nPeriods).map
    (fun k => (agg.block_transform.getD (fun _ => none))
      (groupRows (data.getColumn attr) inv k))

/-- One iteration of the aggregate loop of `_compute_period_aggregation`: a
kind without a whole-segment reduction is recorded as inapplicable and
skipped; an applicable kind appends one group-by aggregate column. -/
def periodStep (data : Table) (nPeriods : Nat) (inv : List Nat)
    (attr : Variable) (st : BlkState) (t : String) : BlkState :=
  let agg := aggOf t
  if agg.block_transform.isNone then
    { st with inapplicable := insertAbsent st.inapplicable agg.long_desc }
  else
    { st with
      names := st.names.tail,
      attributes := st.attributes ++ [_var_for_agg attr agg (st.names.headD "")],
      columns := st.columns ++ [periodAggColumn data nPeriods inv agg attr] }

/-- The period-key output column: the sorted distinct keys, stored 1-based
for month-of-year when the month names are disabled. -/
def periodKeyColumn (data : Table) (pw : String) (use_names : Bool) : Column :=
  let periods := uniqueSorted (periodTimes data pw)
  let periodsAdj :=
    if pw = "Month of year" ∧ use_names = false then periods.map (fun v => v + 1)
    else periods
  periodsAdj.map (fun v => (some (v : ℚ) : Cell))

/-- The instance-count output column: the number of source rows mapped to
every key, in ascending key order. -/
def periodCountColumn (data : Table) (pw : String) : Column :=
  (countsOf (periodTimes data pw)).map (fun n => (some ((n : Nat) : ℚ) : Cell))

/-- The final state of the period-aggregation engine: the period-key and
instance-count columns followed by one block aggregate per requested
applicable (variable, kind) pair; kinds without a whole-segment reduction
are collected as inapplicable. -/
def periodState (vars : List Variable) (gt : Nat → List String)
    (data : Table) (pw : String) (use_names : Bool) : BlkState :=
  let period := periodOf pw
  let names := _names_for_blocked_aggregation vars gt data
    Method.TimePeriods pw Ref.DiscardOriginal
  let times := periodTimes data pw
  let periods := uniqueSorted times
  let inv := inverseIndices times
  let headVar := periodHeadVar data period use_names (names.headD "")
  let countVar : Variable :=
    { name := names.tail.headD "", kind := VarKind.continuous }
  let st0 : BlkState :=
    { names := names.tail.tail,
      attributes := [headVar, countVar],
      columns := [periodKeyColumn data pw use_names,
                  periodCountColumn data pw],
      inapplicable := [] }
  vars.enum.foldl
    (fun st (p : Nat × Variable) =>
      (gt p.1).foldl (periodStep data periods.length inv p.2) st)
    st0

/-- Core of `_compute_period_aggregation`, parameterised over the model state: build
the key, count and aggregate columns, set the warnings, and return no output
exactly when the column list is empty (which never happens — the key and
count columns are always present). -/
def periodCore (vars : List Variable) (gt : Nat → List String)
    (data : Table) (pw : String) (use_names : Bool) :
    Option OutTable × Warnings :=
  let st := periodState vars gt data pw use_names
  let w := set_warnings_upd noWarnings st.columns (some st.inapplicable)
  if st.columns = [] then (none, w)
  else (some { attributes := st.attributes, columns := st.columns }, w)

/-- Wrapper for `_compute_period_aggregation` as invoked by `commit`. -/
def _compute_period_aggregation (data : Table) (m : TransModel) (pw : String)
    (use_names : Bool) : Option OutTable × Warnings :=
  periodCore m.vars m.get_transformations data pw use_names

/-- The method-specific parameters of one commit. -/
structure Config where
  method : Method
  window_width : Nat := 5
  keep_instances : Keep := Keep.KeepComplete
  block_width : Nat := 5
  ref_instance : Ref := Ref.DiscardOriginal
  period_width : String := "Years"
  use_names : Bool := true

/-- The commit dispatcher: clear the warnings; with no usable input
(`not self.data` — no table, or a table with zero rows) send no output;
otherwise run the engine selected by the configured method. -/
def commit (data : Option Table) (m : TransModel) (cfg : Config) :
    Option OutTable × Warnings :=
  match data with
  | none => (none, noWarnings)
  | some d =>
    if d.nRows = 0 then (none, noWarnings)
    else
      match cfg.method with
      | Method.SlidingWindow =>
        _compute_sliding_window d m cfg.window_width cfg.keep_instances
      | Method.SequentialBlocks =>
        _compute_sequential_blocks d m cfg.block_width cfg.ref_instance
      | Method.TimePeriods =>
        _compute_period_aggregation d m cfg.period_width cfg.use_names

/-- A continuous example variable. -/
def exVarA : Variable := { name := "a", kind := VarKind.continuous }

/-- An example time variable (Orange time variables are continuous). -/
def exVarTime : Variable := { name := "Time", kind := VarKind.continuous }

/-- A five-row example table with a single continuous attribute. -/
def exTable5 : Table :=
  { attrs := [exVarA], class_vars := [], metas := [],
    X := [[some 1, some 2, some 3, some 4, some 5]], Y := [],
    timeVar := none, timeCol := [], nRows := 5 }

/-- A four-row example table with a single continuous attribute. -/
def exTable4 : Table :=
  { attrs := [exVarA], class_vars := [], metas := [],
    X := [[some 1, some 2, some 3, some 4]], Y := [],
    timeVar := none, timeCol := [], nRows := 4 }

/-- A zero-row example table. -/
def exTable0 : Table :=
  { attrs := [exVarA], class_vars := [], metas := [],
    X := [[]], Y := [], timeVar := none, timeCol := [], nRows := 0 }

/-- A three-row example table with a designated time column
(2016-01-05, 2016-01-20 and 2016-02-03, as epoch seconds). -/
def exTableTime : Table :=
  { attrs := [exVarTime, exVarA], class_vars := [], metas := [],
    X := [[some 1451952000, some 1453248000, some 1454457600],
          [some 1, some 2, some 3]],
    Y := [],
    timeVar := some exVarTime,
    timeCol := [1451952000, 1453248000, 1454457600], nRows := 3 }

/-- A model selecting the mean for the single example variable. -/
def exModelMean : TransModel :=
  { vars := [exVarA], transformations := [["mean"]] }

/-- A model with an empty selection for the single example variable. -/
def exModelEmpty : TransModel :=
  { vars := [exVarA], transformations := [[]] }

/-- A model whose selection was inserted as mean-then-sum. -/
def exModelMeanSum : TransModel :=
  { vars := [exVarA], transformations := [["mean", "sum"]] }

/-- The same selection as `exModelMeanSum`, inserted as sum-then-mean. -/
def exModelSumMean : TransModel :=
  { vars := [exVarA], transformations := [["sum", "mean"]] }

/-- A model selecting only the cumulative sum. -/
def exModelCumsum : TransModel :=
  { vars := [exVarA], transformations := [["cumsum"]] }

/-- A model over the time table offering only the non-time variable. -/
def exModelTime : TransModel :=
  { vars := [exVarA], transformations := [["mean"]] }

/-- The variables the sequential-block engine feeds to `add_aggregates`:
the attributes paired with their data columns, then the class variables. -/
def processedAttrsBlk (data : Table) : List Variable :=
  (data.attrs.zip data.X).map Prod.fst ++ data.class_vars

/-- Whether some processed variable offered by the model requests a kind
without a whole-segment reduction whose display name is `x`. -/
def inappRequestedB (vars : List Variable) (gt : Nat → List String)
    (as : List Variable) (x : String) : Bool :=
  as.any (fun a => decide (a ∈ vars) &&
    (gt (indexOfVar vars a)).any
      (fun t => (aggOf t).block_transform.isNone &&
        ((aggOf t).long_desc == x)))

/-- The inapplicable display names the block engine is expected to report,
in catalog registration order. -/
def inappRequestedList (vars : List Variable) (gt : Nat → List String)
    (as : List Variable) : List String :=
  AggOptions.filterMap (fun p =>
    if inappRequestedB vars gt as p.2.long_desc then some p.2.long_desc
    else none)

/-- Whether some offered variable requests a kind without a whole-segment
reduction whose display name is `x` (period engine, which iterates the model
by position). -/
def inappRequestedPeriodB (vars : List Variable) (gt : Nat → List String)
    (x : String) : Bool :=
  vars.enum.any (fun p =>
    (gt p.1).any
      (fun t => (aggOf t).block_transform.isNone &&
        ((aggOf t).long_desc == x)))

/-- The inapplicable display names the period engine is expected to report,
in catalog registration order. -/
def inappRequestedPeriodList (vars : List Variable)
    (gt : Nat → List String) : List String :=
  AggOptions.filterMap (fun p =>
    if inappRequestedPeriodB vars gt p.2.long_desc then some p.2.long_desc
    else none)

/-- C5: in sequential-block mode, a table with fewer rows than the block
width makes the engine signal `BlockTooLarge` and return no output, with no
other warning and no aggregation performed. -/
theorem C5_theorem (data : Table) (m : TransModel) (width : Nat) (ref : Ref)
    (h : data.nRows < width) :
    _compute_sequential_blocks data m width ref =
      (none, { noWarnings with block_to_large := true }) := by
  unfold _compute_sequential_blocks blocksCore
  simp [h]

/-- Witness for C5 at a concrete input: five rows, block width six. -/
theorem C5_witness :
    exTable5.nRows < 6 ∧
    _compute_sequential_blocks exTable5 exModelMean 6 Ref.KeepLast =
      (none, { noWarnings with block_to_large := true }) :=
  ⟨by decide, C5_theorem exTable5 exModelMean 6 Ref.KeepLast (by decide)⟩

/-- C9: for every source variable and output name, the count-aggregate kinds
(non-zero count and defined count, the two catalog entries flagged
`count_aggregate`) produce a continuous variable with zero decimals,
regardless of the source variable. -/
theorem C9_theorem (attr : Variable) (name : String) :
    _var_for_agg attr (aggOf "non-zero") name =
      { name := name, kind := VarKind.continuous, decimals := 0 } ∧
    _var_for_agg attr (aggOf "defined") name =
      { name := name, kind := VarKind.continuous, decimals := 0 } ∧
    (aggOf "non-zero").count_aggregate = true ∧
    (aggOf "defined").count_aggregate = true ∧
    (AggOptions.filter (fun p => p.2.count_aggregate)).map Prod.fst =
      ["non-zero", "defined"] :=
  ⟨rfl, rfl, rfl, rfl, rfl⟩

unseal Rat.add Rat.mul Rat.inv Rat.sub in
/-- C2 (code bug): at block width 2 with the middle reference row, the
retention slice `[1:0:2]` has a Python stop of `-0 = 0` and selects nothing,
so the engine retains zero original rows although the four-row table has two
complete segments (the claim, offset `⌊2/2⌋ = 1`, demands rows 1 and 3); the
aggregate column still has one value per segment, so the two column lengths
disagree. -/
theorem C2_theorem :
    (blocksState exModelMean.vars exModelMean.get_transformations exTable4 2
        Ref.KeepMiddle).columns =
      [[], [some (3 / 2 : ℚ), some (7 / 2 : ℚ)]] ∧
    (blockRetainSlice 2 Ref.KeepMiddle).indices 4 = [] ∧
    exTable4.nRows / 2 = 2 := by
  decide

unseal Rat.add Rat.mul Rat.inv Rat.sub in
/-- Counterexample to C1 as stated: sliding-window mode, empty selection,
originals kept — the engine produces the retained original column, sets no
warning and returns a table, not a null output. -/
theorem C1_counterexample :
    (_compute_sliding_window exTable5 exModelEmpty 3 Keep.KeepComplete).1 =
      some { attributes := [exVarA], columns := [[some 3, some 4, some 5]],
             class_vars := [], Y := [], metas := [] } ∧
    (_compute_sliding_window exTable5 exModelEmpty 3 Keep.KeepComplete).2 =
      noWarnings := by
  decide

/-- Counterexample to C3 as stated: a zero-row input table is falsy
(`if not self.data`), so the dispatcher returns a null output with every
warning cleared. -/
theorem C3_counterexample :
    commit (some exTable0) exModelMean { method := Method.SlidingWindow } =
      (none, noWarnings) := by
  decide

/-- Columns after the aggregate loop of one sliding-window variable: one
aggregate column per requested kind is appended. -/
theorem swFold_columns (wd : Nat) (keep : Keep) (attr : Variable)
    (column : Column) (ts : List String) (st : AggState) :
    ((ts.foldl (swStep wd keep attr column) st).columns) =
      st.columns ++ ts.map (fun t => swAggColumn wd keep (aggOf t) column) := by
  induction ts generalizing st with
  | nil => simp
  | cons t ts ih =>
    rw [List.foldl_cons, ih]
    simp [swStep]

/-- Columns after `add_aggregates` of the sliding-window engine: nothing for
a variable not offered by the model, one aggregate column per requested kind
otherwise. -/
theorem addAggregatesSW_columns (vars : List Variable)
    (gt : Nat → List String) (wd : Nat) (keep : Keep) (a : Variable)
    (c : Column) (st : AggState) :
    (addAggregatesSW vars gt wd keep a c st).columns =
      st.columns ++
        (if a ∈ vars then
          (gt (indexOfVar vars a)).map
            (fun t => swAggColumn wd keep (aggOf t) c)
        else []) := by
  unfold addAggregatesSW
  split
  · rw [swFold_columns]
  · simp

/-- C4: in the sliding-window engine, every selected (variable, kind) pair
contributes exactly one aggregate column: the cumulative transform over the
entire input column when all rows are kept and the kind has one; otherwise
the windowed transform at width `window_width` and step 1, head-padded with
exactly `window_width − 1` missing values when all rows are kept so that it
aligns with the original row indices. -/
theorem C4_theorem (vars : List Variable) (gt : Nat → List String) (wd : Nat)
    (keep : Keep) (a : Variable) (c : Column) (st : AggState) :
    (addAggregatesSW vars gt wd keep a c st).columns =
      st.columns ++
        (if a ∈ vars then
          (gt (indexOfVar vars a)).map (fun t =>
            if (aggOf t).cumulative.isSome ∧ keep = Keep.KeepAll then
              ((aggOf t).cumulative.getD id) c
            else if keep = Keep.KeepAll then
              List.replicate (wd - 1) (none : Cell) ++ (aggOf t).transform c wd 1
            else (aggOf t).transform c wd 1)
        else []) := by
  have hfun : ∀ t, swAggColumn wd keep (aggOf t) c =
      (if (aggOf t).cumulative.isSome ∧ keep = Keep.KeepAll then
        ((aggOf t).cumulative.getD id) c
      else if keep = Keep.KeepAll then
        List.replicate (wd - 1) (none : Cell) ++ (aggOf t).transform c wd 1
      else (aggOf t).transform c wd 1) := by
    intro t
    unfold swAggColumn
    split <;> rfl
  rw [addAggregatesSW_columns]
  simp only [hfun]

/-- Columns after the attribute loop of the sliding-window engine: per
attribute, the (sliced) original column unless originals are discarded,
followed by its aggregate columns. -/
theorem swAttrFold_columns (vars : List Variable) (gt : Nat → List String)
    (wd : Nat) (keep : Keep) (ps : List (Variable × Column)) (st : AggState) :
    ((ps.foldl (swAttrStep vars gt wd keep) st).columns) =
      st.columns ++ ps.flatMap (fun p =>
        (if keep = Keep.DiscardOriginal then []
         else [swOriginalSlice wd keep p.2]) ++
        (if p.1 ∈ vars then
          (gt (indexOfVar vars p.1)).map
            (fun t => swAggColumn wd keep (aggOf t) p.2)
        else [])) := by
  induction ps generalizing st with
  | nil => simp
  | cons p ps ih =>
    rw [List.foldl_cons, ih]
    unfold swAttrStep
    by_cases hd : keep = Keep.DiscardOriginal
    · simp [hd, addAggregatesSW_columns]
    · simp [hd, addAggregatesSW_columns]

/-- Columns after the class-variable loop of the sliding-window engine: only
aggregate columns are appended. -/
theorem swClassFold_columns (vars : List Variable) (gt : Nat → List String)
    (wd : Nat) (keep : Keep) (ps : List (Variable × Column)) (st : AggState) :
    ((ps.foldl (swClassStep vars gt wd keep) st).columns) =
      st.columns ++ ps.flatMap (fun p =>
        if p.1 ∈ vars then
          (gt (indexOfVar vars p.1)).map
            (fun t => swAggColumn wd keep (aggOf t) p.2)
        else []) := by
  induction ps generalizing st with
  | nil => simp
  | cons p ps ih =>
    rw [List.foldl_cons, ih]
    unfold swClassStep
    simp [addAggregatesSW_columns]

/-- The full column list of the sliding-window engine: original columns
(unless discarded) interleaved with aggregate columns over the attributes,
then aggregate columns over the class variables. -/
theorem slidingState_columns (vars : List Variable) (gt : Nat → List String)
    (data : Table) (wd : Nat) (keep : Keep) :
    (slidingState vars gt data wd keep).columns =
      (data.attrs.zip data.X).flatMap (fun p =>
        (if keep = Keep.DiscardOriginal then []
         else [swOriginalSlice wd keep p.2]) ++
        (if p.1 ∈ vars then
          (gt (indexOfVar vars p.1)).map
            (fun t => swAggColumn wd keep (aggOf t) p.2)
        else [])) ++
      (data.class_vars.zip data.Y).flatMap (fun p =>
        if p.1 ∈ vars then
          (gt (indexOfVar vars p.1)).map
            (fun t => swAggColumn wd keep (aggOf t) p.2)
        else []) := by
  unfold slidingState
  rw [swClassFold_columns, swAttrFold_columns]
  rfl

/-- Columns after the aggregate loop of one sequential-block variable: one
block-aggregate column per requested kind that has a whole-segment
reduction; inapplicable kinds contribute nothing. -/
theorem blkFold_columns (width : Nat) (a : Variable) (c : Column)
    (ts : List String) (st : BlkState) :
    ((ts.foldl (blkStep width a c) st).columns) =
      st.columns ++
        (ts.filter (fun t => (aggOf t).block_transform.isSome)).map
          (fun t => (aggOf t).transform c width width) := by
  induction ts generalizing st with
  | nil => simp
  | cons t ts ih =>
    rw [List.foldl_cons, ih]
    unfold blkStep
    cases hbt : (aggOf t).block_transform <;>
      simp [hbt, List.filter_cons]

/-- Columns after `add_aggregates` of the sequential-block engine. -/
theorem addAggregatesBlk_columns (vars : List Variable)
    (gt : Nat → List String) (width : Nat) (a : Variable) (c : Column)
    (st : BlkState) :
    (addAggregatesBlk vars gt width a c st).columns =
      st.columns ++
        (if a ∈ vars then
          ((gt (indexOfVar vars a)).filter
            (fun t => (aggOf t).block_transform.isSome)).map
              (fun t => (aggOf t).transform c width width)
        else []) := by
  unfold addAggregatesBlk
  split
  · rw [blkFold_columns]
  · simp

/-- Columns after the attribute loop of the sequential-block engine: per
attribute, the retained representative rows unless originals are discarded,
followed by its applicable block aggregates. -/
theorem blkAttrFold_columns (vars : List Variable) (gt : Nat → List String)
    (width : Nat) (ref : Ref) (ps : List (Variable × Column)) (st : BlkState) :
    ((ps.foldl (blkAttrStep vars gt width ref) st).columns) =
      st.columns ++ ps.flatMap (fun p =>
        (if ref = Ref.DiscardOriginal then []
         else [applySlice (blockRetainSlice width ref) p.2]) ++
        (if p.1 ∈ vars then
          ((gt (indexOfVar vars p.1)).filter
            (fun t => (aggOf t).block_transform.isSome)).map
              (fun t => (aggOf t).transform p.2 width width)
        else [])) := by
  induction ps generalizing st with
  | nil => simp
  | cons p ps ih =>
    rw [List.foldl_cons, ih]
    unfold blkAttrStep
    by_cases hd : ref = Ref.DiscardOriginal
    · simp [hd, addAggregatesBlk_columns]
    · simp [hd, addAggregatesBlk_columns]

/-- Columns after the class-variable loop of the sequential-block engine. -/
theorem blkClassFold_columns (vars : List Variable) (gt : Nat → List String)
    (width : Nat) (data : Table) (as : List Variable) (st : BlkState) :
    ((as.foldl (blkClassStep vars gt width data) st).columns) =
      st.columns ++ as.flatMap (fun a =>
        if a ∈ vars then
          ((gt (indexOfVar vars a)).filter
            (fun t => (aggOf t).block_transform.isSome)).map
              (fun t => (aggOf t).transform (data.getColumn a) width width)
        else []) := by
  induction as generalizing st with
  | nil => simp
  | cons a as ih =>
    rw [List.foldl_cons, ih]
    unfold blkClassStep
    simp [addAggregatesBlk_columns]

/-- The full column list of the sequential-block engine. -/
theorem blocksState_columns (vars : List Variable) (gt : Nat → List String)
    (data : Table) (width : Nat) (ref : Ref) :
    (blocksState vars gt data width ref).columns =
      (data.attrs.zip data.X).flatMap (fun p =>
        (if ref = Ref.DiscardOriginal then []
         else [applySlice (blockRetainSlice width ref) p.2]) ++
        (if p.1 ∈ vars then
          ((gt (indexOfVar vars p.1)).filter
            (fun t => (aggOf t).block_transform.isSome)).map
              (fun t => (aggOf t).transform p.2 width width)
        else [])) ++
      data.class_vars.flatMap (fun a =>
        if a ∈ vars then
          ((gt (indexOfVar vars a)).filter
            (fun t => (aggOf t).block_transform.isSome)).map
              (fun t => (aggOf t).transform (data.getColumn a) width width)
        else []) := by
  unfold blocksState
  rw [blkClassFold_columns, blkAttrFold_columns]
  rfl

/-- A flat map whose every fiber is empty is empty. -/
theorem flatMap_const_nil {α β : Type} (l : List α) :
    (l.flatMap (fun _ => ([] : List β))) = [] := by
  induction l <;> simp_all

/-- C1 (amended): in sliding-window mode, and in sequential-block mode when
the block fits into the table, if zero aggregate columns are produced (empty
selection, or every requested kind inapplicable) and no original columns are
retained — the retention setting is Discard, or the table has no attribute
columns — then the engine signals `NoAggregationsSelected` and returns a
null output.  (As stated the claim is false: retained original columns count
as produced columns, see the counterexample.) -/
theorem C1_theorem :
    (∀ (data : Table) (m : TransModel) (wd : Nat) (keep : Keep),
      (∀ i, m.get_transformations i = []) →
      (keep = Keep.DiscardOriginal ∨ data.attrs = []) →
      _compute_sliding_window data m wd keep =
        (none, { noWarnings with
                   window_to_large := decide (data.nRows < wd),
                   no_aggregations := true })) ∧
    (∀ (data : Table) (m : TransModel) (width : Nat) (ref : Ref),
      (∀ i t, t ∈ m.get_transformations i → (aggOf t).block_transform = none) →
      (ref = Ref.DiscardOriginal ∨ data.attrs = []) →
      width ≤ data.nRows →
      (_compute_sequential_blocks data m width ref).1 = none ∧
      (_compute_sequential_blocks data m width ref).2.no_aggregations = true) := by
  constructor
  · intro data m wd keep hsel hdisc
    have hcols :
        (slidingState m.vars m.get_transformations data wd keep).columns = [] := by
      rw [slidingState_columns]
      rcases hdisc with h | h
      · simp [h, hsel, flatMap_const_nil]
      · simp [h, hsel, flatMap_const_nil]
    simp only [_compute_sliding_window, slidingCore, hcols, set_warnings_upd]
    simp
  · intro data m width ref hsel hdisc hw
    have hfil : ∀ i,
        (m.get_transformations i).filter
          (fun t => (aggOf t).block_transform.isSome) = [] := by
      intro i
      rw [List.filter_eq_nil_iff]
      intro t ht
      rw [hsel i t ht]
      simp
    have hcols :
        (blocksState m.vars m.get_transformations data width ref).columns = [] := by
      rw [blocksState_columns]
      rcases hdisc with h | h
      · simp [h, hfil, flatMap_const_nil]
      · simp [h, hfil, flatMap_const_nil]
    have hnw : ¬ data.nRows < width := not_lt.mpr hw
    constructor <;>
      simp only [_compute_sequential_blocks, blocksCore, hnw, if_false, hcols,
        set_warnings_upd] <;>
      simp

/-- Witness for C1 at concrete inputs: an empty selection under discarded
originals in sliding-window mode, and a cumulative-sum-only selection under
discarded originals in sequential-block mode. -/
theorem C1_witness :
    _compute_sliding_window exTable5 exModelEmpty 3 Keep.DiscardOriginal =
      (none, { noWarnings with
                 window_to_large := decide (exTable5.nRows < 3),
                 no_aggregations := true }) ∧
    (_compute_sequential_blocks exTable4 exModelCumsum 2
        Ref.DiscardOriginal).1 = none ∧
    (_compute_sequential_blocks exTable4 exModelCumsum 2
        Ref.DiscardOriginal).2.no_aggregations = true := by
  refine ⟨C1_theorem.1 exTable5 exModelEmpty 3 Keep.DiscardOriginal ?h1
            (Or.inl rfl),
          (C1_theorem.2 exTable4 exModelCumsum 2 Ref.DiscardOriginal ?h2
            (Or.inl rfl) (by decide)).1,
          (C1_theorem.2 exTable4 exModelCumsum 2 Ref.DiscardOriginal ?h2
            (Or.inl rfl) (by decide)).2⟩
  case h1 =>
    intro i
    cases i <;> rfl
  case h2 =>
    intro i t ht
    cases i with
    | zero =>
      have hts : t = "cumsum" := by
        simpa [TransModel.get_transformations, exModelCumsum, aggOrder,
          AggOptions] using ht
      subst hts
      rfl
    | succ n =>
      simp [TransModel.get_transformations, exModelCumsum, List.getD] at ht

/-- Columns after the aggregate loop of one period-aggregation variable. -/
theorem periodFold_columns (data : Table) (nP : Nat) (inv : List Nat)
    (attr : Variable) (ts : List String) (st : BlkState) :
    ((ts.foldl (periodStep data nP inv attr) st).columns) =
      st.columns ++
        (ts.filter (fun t => (aggOf t).block_transform.isSome)).map
          (fun t => periodAggColumn data nP inv (aggOf t) attr) := by
  induction ts generalizing st with
  | nil => simp
  | cons t ts ih =>
    rw [List.foldl_cons, ih]
    unfold periodStep
    cases hbt : (aggOf t).block_transform <;>
      simp [hbt, List.filter_cons]

/-- Columns after the variable loop of the period-aggregation engine. -/
theorem periodVarsFold_columns (data : Table) (nP : Nat) (inv : List Nat)
    (gt : Nat → List String) (ps : List (Nat × Variable)) (st : BlkState) :
    ((ps.foldl
        (fun st (p : Nat × Variable) =>
          (gt p.1).foldl (periodStep data nP inv p.2) st) st).columns) =
      st.columns ++ ps.flatMap (fun p =>
        ((gt p.1).filter (fun t => (aggOf t).block_transform.isSome)).map
          (fun t => periodAggColumn data nP inv (aggOf t) p.2)) := by
  induction ps generalizing st with
  | nil => simp
  | cons p ps ih =>
    rw [List.foldl_cons, ih, periodFold_columns]
    simp

/-- The full column list of the period-aggregation engine: the period-key
column, the instance-count column, then one group-by aggregate column per
requested applicable (variable, kind) pair. -/
theorem periodState_columns (vars : List Variable) (gt : Nat → List String)
    (data : Table) (pw : String) (un : Bool) :
    (periodState vars gt data pw un).columns =
      [periodKeyColumn data pw un, periodCountColumn data pw] ++
      vars.enum.flatMap (fun p =>
        ((gt p.1).filter (fun t => (aggOf t).block_transform.isSome)).map
          (fun t => periodAggColumn data
            (uniqueSorted (periodTimes data pw)).length
            (inverseIndices (periodTimes data pw)) (aggOf t) p.2)) := by
  unfold periodState
  rw [periodVarsFold_columns]

/-- A null sliding-window output always carries the no-aggregations
warning. -/
theorem slidingCore_none_warn (vars : List Variable) (gt : Nat → List String)
    (data : Table) (wd : Nat) (keep : Keep)
    (h : (slidingCore vars gt data wd keep).1 = none) :
    (slidingCore vars gt data wd keep).2.no_aggregations = true := by
  by_cases hc : (slidingState vars gt data wd keep).columns = []
  · simp [slidingCore, hc, set_warnings_upd]
  · exfalso
    by_cases hd : keep = Keep.DiscardOriginal
    · subst hd
      simp [slidingCore, hc] at h
    · simp [slidingCore, hc, hd] at h

/-- A null sequential-block output always carries the no-aggregations or the
block-too-large warning. -/
theorem blocksCore_none_warn (vars : List Variable) (gt : Nat → List String)
    (data : Table) (width : Nat) (ref : Ref)
    (h : (blocksCore vars gt data width ref).1 = none) :
    (blocksCore vars gt data width ref).2.no_aggregations = true ∨
    (blocksCore vars gt data width ref).2.block_to_large = true := by
  by_cases hw : data.nRows < width
  · right
    simp [blocksCore, hw]
  · left
    by_cases hc : (blocksState vars gt data width ref).columns = []
    · simp [blocksCore, hw, hc, set_warnings_upd]
    · exfalso
      by_cases hd : ref = Ref.DiscardOriginal
      · subst hd
        simp [blocksCore, hw, hc] at h
      · simp [blocksCore, hw, hc, hd] at h

/-- The period-aggregation engine always produces an output table: the
period-key and instance-count columns are always present. -/
theorem periodCore_isSome (vars : List Variable) (gt : Nat → List String)
    (data : Table) (pw : String) (un : Bool) :
    (periodCore vars gt data pw un).1.isSome = true := by
  have hc : (periodState vars gt data pw un).columns ≠ [] := by
    rw [periodState_columns]
    simp
  simp [periodCore, hc]

/-- C3 (amended): for every input table with at least one row, a null output
of the dispatcher is always accompanied by a structured warning.  (As stated
the claim is false for a zero-row table, which `if not self.data` treats
like an absent input: null output, no warning; see the counterexample.) -/
theorem C3_theorem (data : Table) (m : TransModel) (cfg : Config)
    (h1 : 1 ≤ data.nRows)
    (h2 : (commit (some data) m cfg).1 = none) :
    (commit (some data) m cfg).2.no_aggregations = true ∨
    (commit (some data) m cfg).2.inapplicable_aggregations ≠ none ∨
    (commit (some data) m cfg).2.window_to_large = true ∨
    (commit (some data) m cfg).2.block_to_large = true := by
  have hnz : ¬ data.nRows = 0 := by omega
  obtain ⟨mth, wd, keep, bw, ref, pw, un⟩ := cfg
  cases mth with
  | SlidingWindow =>
    simp only [commit, hnz, if_false] at h2 ⊢
    exact Or.inl (slidingCore_none_warn _ _ _ _ _ h2)
  | SequentialBlocks =>
    simp only [commit, hnz, if_false] at h2 ⊢
    rcases blocksCore_none_warn _ _ _ _ _ h2 with h | h
    · exact Or.inl h
    · exact Or.inr (Or.inr (Or.inr h))
  | TimePeriods =>
    simp only [commit, hnz, if_false] at h2
    have hs := periodCore_isSome m.vars m.get_transformations data pw un
    simp only [_compute_period_aggregation] at h2
    rw [h2] at hs
    simp at hs

/-- Witness for C3 at a concrete input: a five-row table, empty selection,
sliding-window mode discarding originals — the output is null and a warning
is set. -/
theorem C3_witness :
    1 ≤ exTable5.nRows ∧
    (commit (some exTable5) exModelEmpty
      { method := Method.SlidingWindow,
        keep_instances := Keep.DiscardOriginal }).1 = none ∧
    ((commit (some exTable5) exModelEmpty
      { method := Method.SlidingWindow,
        keep_instances := Keep.DiscardOriginal }).2.no_aggregations = true ∨
     (commit (some exTable5) exModelEmpty
      { method := Method.SlidingWindow,
        keep_instances := Keep.DiscardOriginal }).2.inapplicable_aggregations
        ≠ none ∨
     (commit (some exTable5) exModelEmpty
      { method := Method.SlidingWindow,
        keep_instances := Keep.DiscardOriginal }).2.window_to_large = true ∨
     (commit (some exTable5) exModelEmpty
      { method := Method.SlidingWindow,
        keep_instances := Keep.DiscardOriginal }).2.block_to_large = true) :=
  ⟨by decide, by decide,
   C3_theorem exTable5 exModelEmpty
     { method := Method.SlidingWindow, keep_instances := Keep.DiscardOriginal }
     (by decide) (by decide)⟩

/-- Membership in an insertion-sorted list. -/
theorem mem_insertSortedZ (a x : Int) (l : List Int) :
    a ∈ insertSortedZ x l ↔ a = x ∨ a ∈ l := by
  induction l with
  | nil => simp [insertSortedZ]
  | cons y ys ih =>
    unfold insertSortedZ
    split
    · simp
    · simp [ih]
      tauto

/-- Sorting preserves membership. -/
theorem mem_sortFold (a : Int) (xs : List Int) :
    a ∈ xs.foldr insertSortedZ [] ↔ a ∈ xs := by
  induction xs with
  | nil => simp
  | cons x xs ih => simp [mem_insertSortedZ, ih]

/-- The distinct sorted values are exactly the values occurring in the
input. -/
theorem mem_uniqueSorted (a : Int) (xs : List Int) :
    a ∈ uniqueSorted xs ↔ a ∈ xs := by
  unfold uniqueSorted
  rw [List.mem_dedup]
  exact mem_sortFold a xs

/-- The distinct sorted values contain no duplicate. -/
theorem nodup_uniqueSorted (xs : List Int) : (uniqueSorted xs).Nodup :=
  List.nodup_dedup _

/-- The group counts of `np.unique` sum to the number of grouped values. -/
theorem countsOf_sum (xs : List Int) : (countsOf xs).sum = xs.length := by
  unfold countsOf
  have hfin : (uniqueSorted xs).toFinset = xs.toFinset := by
    ext a
    simp [List.mem_toFinset, mem_uniqueSorted]
  rw [← List.sum_toFinset _ (nodup_uniqueSorted xs), hfin,
    List.sum_toFinset_count_eq_length]

/-- The grouping keys are one per source row. -/
theorem periodTimes_length (data : Table) (pw : String) :
    (periodTimes data pw).length = data.timeCol.length := by
  unfold periodTimes
  simp

/-- Lemma: `_set_warnings` leaves the no-aggregations flag untouched when the
column list is nonempty. -/
theorem set_warnings_upd_no_aggregations (w : Warnings) (cols : List Column)
    (inapp : Option (List String)) (h : cols ≠ []) :
    (set_warnings_upd w cols inapp).no_aggregations = w.no_aggregations := by
  unfold set_warnings_upd
  cases inapp with
  | none => simp [h]
  | some l =>
    by_cases hl : l ≠ [] <;> simp [h, hl]

/-- C7: with at least one row and a designated time column, the
period-aggregation output always exists and opens with the period-key column
followed by the instance-count column, whose entries are the number of
source rows mapped to each key and whose total is the input row count; even
an empty aggregate selection yields this table and `NoAggregationsSelected`
is not signalled. -/
theorem C7_theorem (data : Table) (m : TransModel) (pw : String) (un : Bool)
    (hrows : 1 ≤ data.nRows) (h2 : data.timeCol.length = data.nRows)
    (htv : data.timeVar ≠ none) :
    ∃ out, (_compute_period_aggregation data m pw un).1 = some out ∧
      out.columns.take 2 =
        [periodKeyColumn data pw un, periodCountColumn data pw] ∧
      countsOf (periodTimes data pw) =
        (uniqueSorted (periodTimes data pw)).map
          (fun p => (periodTimes data pw).count p) ∧
      (countsOf (periodTimes data pw)).sum = data.nRows ∧
      (_compute_period_aggregation data m pw un).2.no_aggregations = false := by
  have hcols := periodState_columns m.vars m.get_transformations data pw un
  have hc : (periodState m.vars m.get_transformations data pw un).columns ≠ [] := by
    rw [hcols]
    simp
  refine ⟨{ attributes := (periodState m.vars m.get_transformations data pw un).attributes,
            columns := (periodState m.vars m.get_transformations data pw un).columns },
    ?_, ?_, rfl, ?_, ?_⟩
  · simp [_compute_period_aggregation, periodCore, hc]
  · rw [hcols]
    rfl
  · rw [countsOf_sum, periodTimes_length, h2]
  · have : (_compute_period_aggregation data m pw un).2 =
        set_warnings_upd noWarnings
          (periodState m.vars m.get_transformations data pw un).columns
          (some (periodState m.vars m.get_transformations data pw un).inapplicable) := by
      simp [_compute_period_aggregation, periodCore, hc]
    rw [this, set_warnings_upd_no_aggregations _ _ _ hc]
    rfl

/-- Witness for C7 at a concrete input: three timestamped rows aggregated by
month with an aggregate selection on the non-time variable. -/
theorem C7_witness :
    1 ≤ exTableTime.nRows ∧
    exTableTime.timeCol.length = exTableTime.nRows ∧
    exTableTime.timeVar ≠ none ∧
    (∃ out, (_compute_period_aggregation exTableTime exModelTime "Months"
        true).1 = some out ∧
      out.columns.take 2 =
        [periodKeyColumn exTableTime "Months" true,
         periodCountColumn exTableTime "Months"] ∧
      countsOf (periodTimes exTableTime "Months") =
        (uniqueSorted (periodTimes exTableTime "Months")).map
          (fun p => (periodTimes exTableTime "Months").count p) ∧
      (countsOf (periodTimes exTableTime "Months")).sum =
        exTableTime.nRows ∧
      (_compute_period_aggregation exTableTime exModelTime "Months"
        true).2.no_aggregations = false) :=
  ⟨by decide, by decide, by decide,
   C7_theorem exTableTime exModelTime "Months" true (by decide) (by decide)
     (by decide)⟩

/-- C8: the kinds used to generate output columns and names follow the
catalog registration order — `get_transformations` is a sublist of the
registration order — and depend only on the requested set: two selections
with the same kinds per variable produce the same kind sequences and
an identical sliding-window output. -/
theorem C8_theorem (m1 m2 : TransModel) (data : Table) (wd : Nat)
    (keep : Keep) (hv : m1.vars = m2.vars)
    (ht : ∀ i t, t ∈ m1.transformations.getD i [] ↔
      t ∈ m2.transformations.getD i []) :
    (∀ i, m1.get_transformations i = m2.get_transformations i) ∧
    (∀ i, (m1.get_transformations i).Sublist aggOrder) ∧
    _compute_sliding_window data m1 wd keep =
      _compute_sliding_window data m2 wd keep := by
  have hgt : ∀ i, m1.get_transformations i = m2.get_transformations i := by
    intro i
    unfold TransModel.get_transformations
    apply List.filter_congr
    intro t _
    exact decide_eq_decide.mpr (ht i t)
  refine ⟨hgt, ?_, ?_⟩
  · intro i
    exact List.filter_sublist _
  · have hfun : TransModel.get_transformations m1 =
        TransModel.get_transformations m2 := funext hgt
    unfold _compute_sliding_window
    rw [hv, hfun]

/-- Witness for C8 at a concrete input: the same kind set inserted in the
two opposite orders. -/
theorem C8_witness :
    (∀ i, exModelMeanSum.get_transformations i =
      exModelSumMean.get_transformations i) ∧
    (∀ i, (exModelMeanSum.get_transformations i).Sublist aggOrder) ∧
    _compute_sliding_window exTable5 exModelMeanSum 3 Keep.KeepComplete =
      _compute_sliding_window exTable5 exModelSumMean 3 Keep.KeepComplete := by
  refine C8_theorem exModelMeanSum exModelSumMean exTable5 3 Keep.KeepComplete
    rfl ?_
  intro i t
  cases i with
  | zero => simp [exModelMeanSum, exModelSumMean, or_comm]
  | succ n => exact Iff.rfl

/-- C10: the designated (continuous) time variable is excluded from the
variables `set_data` offers, and `add_aggregates` of both the sliding-window
and the sequential-block engine leaves its state unchanged on the time
variable, so no aggregate column is ever derived from it (the period engine
iterates the offered variables only). -/
theorem C10_theorem (data : Table) (m : TransModel) (tv : Variable)
    (h1 : data.timeVar = some tv) (h2 : tv.kind = VarKind.continuous)
    (h3 : m.vars = set_data_vars data) :
    tv ∉ m.vars ∧
    (∀ (gt : Nat → List String) (wd : Nat) (keep : Keep) (col : Column)
      (st : AggState), addAggregatesSW m.vars gt wd keep tv col st = st) ∧
    (∀ (gt : Nat → List String) (width : Nat) (col : Column) (st : BlkState),
      addAggregatesBlk m.vars gt width tv col st = st) := by
  have hmem : tv ∉ m.vars := by
    rw [h3]
    unfold set_data_vars
    simp [List.mem_filter, h1, h2]
  refine ⟨hmem, ?_, ?_⟩
  · intro gt wd keep col st
    unfold addAggregatesSW
    rw [if_neg hmem]
  · intro gt width col st
    unfold addAggregatesBlk
    rw [if_neg hmem]

/-- Witness for C10 at a concrete input: the timestamped table whose model
offers only the non-time variable. -/
theorem C10_witness :
    exVarTime ∉ exModelTime.vars ∧
    (∀ (gt : Nat → List String) (wd : Nat) (keep : Keep) (col : Column)
      (st : AggState),
      addAggregatesSW exModelTime.vars gt wd keep exVarTime col st = st) ∧
    (∀ (gt : Nat → List String) (width : Nat) (col : Column) (st : BlkState),
      addAggregatesBlk exModelTime.vars gt width exVarTime col st = st) :=
  C10_theorem exTableTime exModelTime exVarTime rfl rfl (by decide)

/-- Membership after a `set.add` style insertion. -/
theorem insertAbsent_mem (l : List String) (y x : String) :
    x ∈ insertAbsent l y ↔ x ∈ l ∨ x = y := by
  unfold insertAbsent
  split
  · rename_i hy
    constructor
    · exact Or.inl
    · rintro (h | rfl)
      · exact h
      · exact hy
  · simp [List.mem_append]

/-- The inapplicable set after one block-aggregate iteration. -/
theorem blkStep_inapp (width : Nat) (a : Variable) (c : Column)
    (st : BlkState) (t : String) (x : String) :
    x ∈ (blkStep width a c st t).inapplicable ↔
      x ∈ st.inapplicable ∨
        ((aggOf t).block_transform.isNone = true ∧
          x = (aggOf t).long_desc) := by
  unfold blkStep
  cases hbt : (aggOf t).block_transform <;>
    simp [hbt, insertAbsent_mem]

/-- The inapplicable set after the aggregate loop of one variable. -/
theorem blkFold_inapp (width : Nat) (a : Variable) (c : Column)
    (ts : List String) (st : BlkState) (x : String) :
    x ∈ ((ts.foldl (blkStep width a c) st).inapplicable) ↔
      x ∈ st.inapplicable ∨
        ∃ t ∈ ts, (aggOf t).block_transform.isNone = true ∧
          x = (aggOf t).long_desc := by
  induction ts generalizing st with
  | nil => simp
  | cons t ts ih =>
    rw [List.foldl_cons, ih, blkStep_inapp]
    constructor
    · rintro ((h | h) | ⟨u, hu, h⟩)
      · exact Or.inl h
      · exact Or.inr ⟨t, List.mem_cons_self t ts, h⟩
      · exact Or.inr ⟨u, List.mem_cons_of_mem t hu, h⟩
    · rintro (h | ⟨u, hu, h⟩)
      · exact Or.inl (Or.inl h)
      · rcases List.mem_cons.mp hu with rfl | hu
        · exact Or.inl (Or.inr h)
        · exact Or.inr ⟨u, hu, h⟩

/-- The inapplicable set after `add_aggregates` of the block engine. -/
theorem addAggregatesBlk_inapp (vars : List Variable)
    (gt : Nat → List String) (width : Nat) (a : Variable) (c : Column)
    (st : BlkState) (x : String) :
    x ∈ (addAggregatesBlk vars gt width a c st).inapplicable ↔
      x ∈ st.inapplicable ∨
        (a ∈ vars ∧ ∃ t ∈ gt (indexOfVar vars a),
          (aggOf t).block_transform.isNone = true ∧
            x = (aggOf t).long_desc) := by
  unfold addAggregatesBlk
  split
  · rw [blkFold_inapp]
    rename_i hmem
    tauto
  · rename_i hmem
    tauto

/-- The inapplicable set after the attribute loop of the block engine. -/
theorem blkAttrFold_inapp (vars : List Variable) (gt : Nat → List String)
    (width : Nat) (ref : Ref) (ps : List (Variable × Column)) (st : BlkState)
    (x : String) :
    x ∈ ((ps.foldl (blkAttrStep vars gt width ref) st).inapplicable) ↔
      x ∈ st.inapplicable ∨
        ∃ p ∈ ps, p.1 ∈ vars ∧ ∃ t ∈ gt (indexOfVar vars p.1),
          (aggOf t).block_transform.isNone = true ∧
            x = (aggOf t).long_desc := by
  induction ps generalizing st with
  | nil => simp
  | cons p ps ih =>
    rw [List.foldl_cons, ih]
    have hstep : x ∈ (blkAttrStep vars gt width ref st p).inapplicable ↔
        x ∈ st.inapplicable ∨
          (p.1 ∈ vars ∧ ∃ t ∈ gt (indexOfVar vars p.1),
            (aggOf t).block_transform.isNone = true ∧
              x = (aggOf t).long_desc) := by
      unfold blkAttrStep
      by_cases hd : ref = Ref.DiscardOriginal <;>
        simp [hd, addAggregatesBlk_inapp]
    rw [hstep]
    constructor
    · rintro ((h | h) | ⟨u, hu, h⟩)
      · exact Or.inl h
      · exact Or.inr ⟨p, List.mem_cons_self p ps, h⟩
      · exact Or.inr ⟨u, List.mem_cons_of_mem p hu, h⟩
    · rintro (h | ⟨u, hu, h⟩)
      · exact Or.inl (Or.inl h)
      · rcases List.mem_cons.mp hu with rfl | hu
        · exact Or.inl (Or.inr h)
        · exact Or.inr ⟨u, hu, h⟩

/-- The inapplicable set after the class-variable loop of the block
engine. -/
theorem blkClassFold_inapp (vars : List Variable) (gt : Nat → List String)
    (width : Nat) (data : Table) (as : List Variable) (st : BlkState)
    (x : String) :
    x ∈ ((as.foldl (blkClassStep vars gt width data) st).inapplicable) ↔
      x ∈ st.inapplicable ∨
        ∃ a ∈ as, a ∈ vars ∧ ∃ t ∈ gt (indexOfVar vars a),
          (aggOf t).block_transform.isNone = true ∧
            x = (aggOf t).long_desc := by
  induction as generalizing st with
  | nil => simp
  | cons a as ih =>
    rw [List.foldl_cons, ih]
    have hstep : x ∈ (blkClassStep vars gt width data st a).inapplicable ↔
        x ∈ st.inapplicable ∨
          (a ∈ vars ∧ ∃ t ∈ gt (indexOfVar vars a),
            (aggOf t).block_transform.isNone = true ∧
              x = (aggOf t).long_desc) := by
      unfold blkClassStep
      rw [addAggregatesBlk_inapp]
    rw [hstep]
    constructor
    · rintro ((h | h) | ⟨u, hu, h⟩)
      · exact Or.inl h
      · exact Or.inr ⟨a, List.mem_cons_self a as, h⟩
      · exact Or.inr ⟨u, List.mem_cons_of_mem a hu, h⟩
    · rintro (h | ⟨u, hu, h⟩)
      · exact Or.inl (Or.inl h)
      · rcases List.mem_cons.mp hu with rfl | hu
        · exact Or.inl (Or.inr h)
        · exact Or.inr ⟨u, hu, h⟩

/-- The inapplicable set after one period-aggregate iteration. -/
theorem periodStep_inapp (data : Table) (nP : Nat) (inv : List Nat)
    (a : Variable) (st : BlkState) (t : String) (x : String) :
    x ∈ (periodStep data nP inv a st t).inapplicable ↔
      x ∈ st.inapplicable ∨
        ((aggOf t).block_transform.isNone = true ∧
          x = (aggOf t).long_desc) := by
  unfold periodStep
  cases hbt : (aggOf t).block_transform <;>
    simp [hbt, insertAbsent_mem]

/-- The inapplicable set after the aggregate loop of one period-engine
variable. -/
theorem periodFold_inapp (data : Table) (nP : Nat) (inv : List Nat)
    (a : Variable) (ts : List String) (st : BlkState) (x : String) :
    x ∈ ((ts.foldl (periodStep data nP inv a) st).inapplicable) ↔
      x ∈ st.inapplicable ∨
        ∃ t ∈ ts, (aggOf t).block_transform.isNone = true ∧
          x = (aggOf t).long_desc := by
  induction ts generalizing st with
  | nil => simp
  | cons t ts ih =>
    rw [List.foldl_cons, ih, periodStep_inapp]
    constructor
    · rintro ((h | h) | ⟨u, hu, h⟩)
      · exact Or.inl h
      · exact Or.inr ⟨t, List.mem_cons_self t ts, h⟩
      · exact Or.inr ⟨u, List.mem_cons_of_mem t hu, h⟩
    · rintro (h | ⟨u, hu, h⟩)
      · exact Or.inl (Or.inl h)
      · rcases List.mem_cons.mp hu with rfl | hu
        · exact Or.inl (Or.inr h)
        · exact Or.inr ⟨u, hu, h⟩

/-- The inapplicable set after the variable loop of the period engine. -/
theorem periodVarsFold_inapp (data : Table) (nP : Nat) (inv : List Nat)
    (gt : Nat → List String) (ps : List (Nat × Variable)) (st : BlkState)
    (x : String) :
    x ∈ ((ps.foldl
        (fun st (p : Nat × Variable) =>
          (gt p.1).foldl (periodStep data nP inv p.2) st) st).inapplicable) ↔
      x ∈ st.inapplicable ∨
        ∃ p ∈ ps, ∃ t ∈ gt p.1,
          (aggOf t).block_transform.isNone = true ∧
            x = (aggOf t).long_desc := by
  induction ps generalizing st with
  | nil => simp
  | cons p ps ih =>
    rw [List.foldl_cons, ih, periodFold_inapp]
    constructor
    · rintro ((h | h) | ⟨u, hu, h⟩)
      · exact Or.inl h
      · exact Or.inr ⟨p, List.mem_cons_self p ps, h⟩
      · exact Or.inr ⟨u, List.mem_cons_of_mem p hu, h⟩
    · rintro (h | ⟨u, hu, h⟩)
      · exact Or.inl (Or.inl h)
      · rcases List.mem_cons.mp hu with rfl | hu
        · exact Or.inl (Or.inr h)
        · exact Or.inr ⟨u, hu, h⟩

/-- Membership in the inapplicable set of the block engine: exactly the
display names of requested kinds without a whole-segment reduction, over the
processed variables offered by the model. -/
theorem blocksState_inapp (vars : List Variable) (gt : Nat → List String)
    (data : Table) (width : Nat) (ref : Ref) (x : String) :
    x ∈ (blocksState vars gt data width ref).inapplicable ↔
      ∃ a ∈ processedAttrsBlk data, a ∈ vars ∧
        ∃ t ∈ gt (indexOfVar vars a),
          (aggOf t).block_transform.isNone = true ∧
            x = (aggOf t).long_desc := by
  unfold blocksState
  rw [blkClassFold_inapp, blkAttrFold_inapp]
  unfold processedAttrsBlk
  simp only [List.not_mem_nil, false_or]
  constructor
  · rintro (⟨p, hp, h⟩ | ⟨a, ha, h⟩)
    · exact ⟨p.1, List.mem_append_left _ (List.mem_map_of_mem Prod.fst hp), h⟩
    · exact ⟨a, List.mem_append_right _ ha, h⟩
  · rintro ⟨a, ha, h⟩
    rcases List.mem_append.mp ha with ha | ha
    · rcases List.mem_map.mp ha with ⟨p, hp, rfl⟩
      exact Or.inl ⟨p, hp, h⟩
    · exact Or.inr ⟨a, ha, h⟩

/-- Membership in the inapplicable set of the period engine. -/
theorem periodState_inapp (vars : List Variable) (gt : Nat → List String)
    (data : Table) (pw : String) (un : Bool) (x : String) :
    x ∈ (periodState vars gt data pw un).inapplicable ↔
      ∃ p ∈ vars.enum, ∃ t ∈ gt p.1,
        (aggOf t).block_transform.isNone = true ∧
          x = (aggOf t).long_desc := by
  unfold periodState
  rw [periodVarsFold_inapp]
  simp only [List.not_mem_nil, false_or]

/-- Looking a registered key up in the catalog returns its descriptor: the
keys of `AggOptions` are pairwise distinct. -/
theorem aggOf_fst (p : String × AggDesc) (h : p ∈ AggOptions) :
    aggOf p.1 = p.2 := by
  fin_cases h <;> rfl

/-- The decidable requested-inapplicable test of the block engine agrees
with its existential description. -/
theorem inappRequestedB_iff (vars : List Variable) (gt : Nat → List String)
    (as : List Variable) (x : String) :
    inappRequestedB vars gt as x = true ↔
      ∃ a ∈ as, a ∈ vars ∧ ∃ t ∈ gt (indexOfVar vars a),
        (aggOf t).block_transform.isNone = true ∧
          x = (aggOf t).long_desc := by
  unfold inappRequestedB
  simp only [List.any_eq_true, Bool.and_eq_true, decide_eq_true_eq,
    beq_iff_eq]
  constructor
  · rintro ⟨a, ha, hv, t, ht, hn, he⟩
    exact ⟨a, ha, hv, t, ht, hn, he.symm⟩
  · rintro ⟨a, ha, hv, t, ht, hn, he⟩
    exact ⟨a, ha, hv, t, ht, hn, he.symm⟩

/-- The decidable requested-inapplicable test of the period engine agrees
with its existential description. -/
theorem inappRequestedPeriodB_iff (vars : List Variable)
    (gt : Nat → List String) (x : String) :
    inappRequestedPeriodB vars gt x = true ↔
      ∃ p ∈ vars.enum, ∃ t ∈ gt p.1,
        (aggOf t).block_transform.isNone = true ∧
          x = (aggOf t).long_desc := by
  unfold inappRequestedPeriodB
  simp only [List.any_eq_true, Bool.and_eq_true, beq_iff_eq]
  constructor
  · rintro ⟨p, hp, t, ht, hn, he⟩
    exact ⟨p, hp, t, ht, hn, he.symm⟩
  · rintro ⟨p, hp, t, ht, hn, he⟩
    exact ⟨p, hp, t, ht, hn, he.symm⟩

/-- Lemma: `_set_warnings` records the canonically ordered display names of a
nonempty inapplicable set and leaves the warning clear otherwise. -/
theorem set_warnings_upd_inapplicable (w : Warnings) (cols : List Column)
    (L : List String) :
    (set_warnings_upd w cols (some L)).inapplicable_aggregations =
      if L = [] then w.inapplicable_aggregations
      else some (canonicalInapplicable L) := by
  unfold set_warnings_upd
  by_cases hl : L = [] <;> by_cases hc : cols = [] <;> simp [hl, hc]

/-- Every kind a model ever hands to an engine is a registered key, so its
descriptor appears in the catalog. -/
theorem mem_gt_registered (m : TransModel) (i : Nat) (t : String)
    (h : t ∈ m.get_transformations i) :
    ∃ p ∈ AggOptions, p.2 = aggOf t := by
  have ht : t ∈ aggOrder := (List.mem_filter.mp h).1
  obtain ⟨p, hp, hfst⟩ := List.mem_map.mp ht
  refine ⟨p, hp, ?_⟩
  rw [← hfst]
  exact (aggOf_fst p hp).symm

/-- Bridge between the engine inapplicable set and the expected warning
value: when membership in the set matches the decidable requested test and
every member is the display name of a registered descriptor, the canonical
warning equals the expected canonical list. -/
theorem inapp_warning_eq (L : List String) (B : String → Bool)
    (Ex : String → Prop) (hmem : ∀ x, x ∈ L ↔ Ex x)
    (hB : ∀ x, B x = true ↔ Ex x)
    (hreg : ∀ x, Ex x → ∃ p ∈ AggOptions, p.2.long_desc = x) :
    (if L = [] then (none : Option (List String))
     else some (canonicalInapplicable L)) =
      (if (AggOptions.filterMap (fun p =>
            if B p.2.long_desc then some p.2.long_desc else none)) = []
       then none
       else some (AggOptions.filterMap (fun p =>
            if B p.2.long_desc then some p.2.long_desc else none))) := by
  have hcanon : canonicalInapplicable L =
      AggOptions.filterMap (fun p =>
        if B p.2.long_desc then some p.2.long_desc else none) := by
    unfold canonicalInapplicable
    apply List.filterMap_congr
    intro p _
    have hiff : (p.2.long_desc ∈ L) ↔ (B p.2.long_desc = true) := by
      rw [hmem, hB]
    by_cases hx : p.2.long_desc ∈ L
    · rw [if_pos hx, if_pos (hiff.mp hx)]
    · rw [if_neg hx, if_neg (fun hb => hx (hiff.mpr hb))]
  have hiff : L = [] ↔
      (AggOptions.filterMap (fun p =>
        if B p.2.long_desc then some p.2.long_desc else none)) = [] := by
    constructor
    · intro h0
      by_contra hR
      obtain ⟨x, hx⟩ := List.exists_mem_of_ne_nil _ hR
      obtain ⟨p, _, hf⟩ := List.mem_filterMap.mp hx
      by_cases hb : B p.2.long_desc = true
      · rw [if_pos hb] at hf
        have hex := (hB _).mp hb
        have : p.2.long_desc ∈ L := (hmem _).mpr hex
        rw [h0] at this
        exact absurd this (List.not_mem_nil _)
      · rw [if_neg hb] at hf
        exact Option.noConfusion hf
    · intro h0
      by_contra hL
      obtain ⟨x, hx⟩ := List.exists_mem_of_ne_nil _ hL
      have hex := (hmem x).mp hx
      obtain ⟨p, hp, hlp⟩ := hreg x hex
      have hxR : p.2.long_desc ∈
          (AggOptions.filterMap (fun p =>
            if B p.2.long_desc then some p.2.long_desc else none)) := by
        refine List.mem_filterMap.mpr ⟨p, hp, ?_⟩
        rw [if_pos]
        rw [hB, hlp]
        exact hex
      rw [h0] at hxR
      exact absurd hxR (List.not_mem_nil _)
  by_cases h0 : L = []
  · rw [if_pos h0, if_pos (hiff.mp h0)]
  · rw [if_neg h0, if_neg (fun h => h0 (hiff.mpr h)), hcanon]

/-- The inapplicable warning produced by the sequential-block engine equals
the canonical list of requested kinds without a whole-segment reduction, or
stays clear when there is none. -/
theorem blocksCore_inapplicable (data : Table) (m : TransModel) (width : Nat)
    (ref : Ref) (hw : width ≤ data.nRows) :
    (_compute_sequential_blocks data m width
        ref).2.inapplicable_aggregations =
      (if inappRequestedList m.vars m.get_transformations
          (processedAttrsBlk data) = [] then none
       else some (inappRequestedList m.vars m.get_transformations
          (processedAttrsBlk data))) := by
  have hnw : ¬ data.nRows < width := not_lt.mpr hw
  have h2 : (_compute_sequential_blocks data m width ref).2 =
      set_warnings_upd noWarnings
        (blocksState m.vars m.get_transformations data width ref).columns
        (some (blocksState m.vars m.get_transformations data width
          ref).inapplicable) := by
    by_cases hc : (blocksState m.vars m.get_transformations data width
        ref).columns = [] <;>
      by_cases hd : ref = Ref.DiscardOriginal <;>
      simp [_compute_sequential_blocks, blocksCore, hnw, hc, hd,
        apply_ite Prod.snd]
  rw [h2, set_warnings_upd_inapplicable]
  unfold inappRequestedList
  refine inapp_warning_eq _ _ _
    (blocksState_inapp m.vars m.get_transformations data width ref)
    (fun x => inappRequestedB_iff m.vars m.get_transformations
      (processedAttrsBlk data) x)
    ?_
  rintro x ⟨a, _, _, t, ht, _, he⟩
  obtain ⟨p, hp, hpe⟩ := mem_gt_registered m _ t ht
  refine ⟨p, hp, ?_⟩
  rw [hpe, ← he]

/-- The inapplicable warning produced by the period-aggregation engine. -/
theorem periodCore_inapplicable (data : Table) (m : TransModel) (pw : String)
    (un : Bool) :
    (_compute_period_aggregation data m pw
        un).2.inapplicable_aggregations =
      (if inappRequestedPeriodList m.vars m.get_transformations = []
       then none
       else some (inappRequestedPeriodList m.vars m.get_transformations)) := by
  have h2 : (_compute_period_aggregation data m pw un).2 =
      set_warnings_upd noWarnings
        (periodState m.vars m.get_transformations data pw un).columns
        (some (periodState m.vars m.get_transformations data pw
          un).inapplicable) := by
    by_cases hc : (periodState m.vars m.get_transformations data pw
        un).columns = [] <;>
      simp [_compute_period_aggregation, periodCore, hc, apply_ite Prod.snd]
  rw [h2, set_warnings_upd_inapplicable]
  unfold inappRequestedPeriodList
  refine inapp_warning_eq _ _ _
    (periodState_inapp m.vars m.get_transformations data pw un)
    (fun x => inappRequestedPeriodB_iff m.vars m.get_transformations x)
    ?_
  rintro x ⟨p, _, t, ht, _, he⟩
  obtain ⟨q, hq, hqe⟩ := mem_gt_registered m _ t ht
  refine ⟨q, hq, ?_⟩
  rw [hqe, ← he]

/-- C6: the catalog kinds without a whole-segment reduction are exactly the
linear and exponential moving averages and the cumulative sum and product;
in sequential-block mode (when the block fits) and in period-aggregation
mode every such requested kind is excluded, the `InapplicableAggregations`
warning names exactly the requested inapplicable kinds (in registration
order) and stays clear otherwise, and the engine still produces one column
per remaining applicable (variable, kind) pair. -/
theorem C6_theorem :
    ((AggOptions.filter (fun p => p.2.block_transform.isNone)).map Prod.fst =
      ["lin. MA", "exp. MA", "cumsum", "cumprod"]) ∧
    (∀ (data : Table) (m : TransModel) (width : Nat) (ref : Ref),
      width ≤ data.nRows →
      (_compute_sequential_blocks data m width
          ref).2.inapplicable_aggregations =
        (if inappRequestedList m.vars m.get_transformations
            (processedAttrsBlk data) = [] then none
         else some (inappRequestedList m.vars m.get_transformations
            (processedAttrsBlk data))) ∧
      (blocksState m.vars m.get_transformations data width ref).columns =
        (data.attrs.zip data.X).flatMap (fun p =>
          (if ref = Ref.DiscardOriginal then []
           else [applySlice (blockRetainSlice width ref) p.2]) ++
          (if p.1 ∈ m.vars then
            ((m.get_transformations (indexOfVar m.vars p.1)).filter
              (fun t => (aggOf t).block_transform.isSome)).map
                (fun t => (aggOf t).transform p.2 width width)
          else [])) ++
        data.class_vars.flatMap (fun a =>
          if a ∈ m.vars then
            ((m.get_transformations (indexOfVar m.vars a)).filter
              (fun t => (aggOf t).block_transform.isSome)).map
                (fun t => (aggOf t).transform (data.getColumn a) width width)
          else [])) ∧
    (∀ (data : Table) (m : TransModel) (pw : String) (un : Bool),
      (_compute_period_aggregation data m pw
          un).2.inapplicable_aggregations =
        (if inappRequestedPeriodList m.vars m.get_transformations = []
         then none
         else some (inappRequestedPeriodList m.vars
            m.get_transformations)) ∧
      (periodState m.vars m.get_transformations data pw un).columns =
        [periodKeyColumn data pw un, periodCountColumn data pw] ++
        m.vars.enum.flatMap (fun p =>
          ((m.get_transformations p.1).filter
            (fun t => (aggOf t).block_transform.isSome)).map
              (fun t => periodAggColumn data
                (uniqueSorted (periodTimes data pw)).length
                (inverseIndices (periodTimes data pw)) (aggOf t) p.2))) :=
  ⟨rfl,
   fun data m width ref hw =>
     ⟨blocksCore_inapplicable data m width ref hw,
      blocksState_columns m.vars m.get_transformations data width ref⟩,
   fun data m pw un =>
     ⟨periodCore_inapplicable data m pw un,
      periodState_columns m.vars m.get_transformations data pw un⟩⟩

/-- Witness for C6 at a concrete input: a cumulative-sum-only selection in
sequential-block mode over a four-row table. -/
theorem C6_witness :
    2 ≤ exTable4.nRows ∧
    ((_compute_sequential_blocks exTable4 exModelCumsum 2
        Ref.DiscardOriginal).2.inapplicable_aggregations =
      (if inappRequestedList exModelCumsum.vars
          exModelCumsum.get_transformations (processedAttrsBlk exTable4) = []
       then none
       else some (inappRequestedList exModelCumsum.vars
          exModelCumsum.get_transformations (processedAttrsBlk exTable4))) ∧
      (blocksState exModelCumsum.vars exModelCumsum.get_transformations
          exTable4 2 Ref.DiscardOriginal).columns =
        (exTable4.attrs.zip exTable4.X).flatMap (fun p =>
          (if Ref.DiscardOriginal = Ref.DiscardOriginal then []
           else [applySlice (blockRetainSlice 2 Ref.DiscardOriginal) p.2]) ++
          (if p.1 ∈ exModelCumsum.vars then
            ((exModelCumsum.get_transformations
                (indexOfVar exModelCumsum.vars p.1)).filter
              (fun t => (aggOf t).block_transform.isSome)).map
                (fun t => (aggOf t).transform p.2 2 2)
          else [])) ++
        exTable4.class_vars.flatMap (fun a =>
          if a ∈ exModelCumsum.vars then
            ((exModelCumsum.get_transformations
                (indexOfVar exModelCumsum.vars a)).filter
              (fun t => (aggOf t).block_transform.isSome)).map
                (fun t => (aggOf t).transform (exTable4.getColumn a) 2 2)
          else [])) :=
  ⟨by decide,
   C6_theorem.2.1 exTable4 exModelCumsum 2 Ref.DiscardOriginal (by decide)⟩

/-- The reference-row slices do realise the claimed per-segment offsets —
one retained row per complete segment, at offset 0 for First and
`width − 1` for Last for every width ≥ 2, and at offset `⌊width/2⌋` for
Middle for every width ≥ 3.  Width 2 with Middle is the single degenerate
combination (see the C2 counterexample). -/
theorem blockRetainSlice_spec (width n : Nat) (h2 : 2 ≤ width)
    (hn : width ≤ n) :
    (blockRetainSlice width Ref.KeepFirst).indices n =
      (List.range (n / width)).map (fun k => k * width) ∧
    (blockRetainSlice width Ref.KeepLast).indices n =
      (List.range (n / width)).map (fun k => k * width + (width - 1)) ∧
    (3 ≤ width →
      (blockRetainSlice width Ref.KeepMiddle).indices n =
        (List.range (n / width)).map (fun k => k * width + width / 2)) := by
  have hwpos : 0 < width := by omega
  have hdiv : n / width = (n - width) / width + 1 :=
    Nat.div_eq_sub_div hwpos hn
  refine ⟨?_, ?_, ?_⟩
  · have hv : (-((width : Int) - 1)) < 0 := by omega
    have hhi : (((n : Int)) + -((width : Int) - 1)).toNat = n - width + 1 := by
      omega
    have hlo : min 0 n = 0 := by omega
    have hlt : 0 < n - width + 1 := by omega
    unfold blockRetainSlice PySlice.indices
    dsimp only
    rw [if_pos hv, hhi, hlo, if_pos hlt]
    have hcount : n - width + 1 - 0 - 1 = n - width := by omega
    rw [hcount, ← hdiv]
    apply List.map_congr_left
    intro k _
    omega
  · have hlo : min (width - 1) n = width - 1 := by omega
    have hlt : width - 1 < n := by omega
    unfold blockRetainSlice PySlice.indices
    dsimp only
    rw [hlo, if_pos hlt]
    have hcount : n - (width - 1) - 1 = n - width := by omega
    rw [hcount, ← hdiv]
    apply List.map_congr_left
    intro k _
    omega
  · intro h3
    have hmid : width / 2 + (width - 1 - width / 2) = width - 1 := by omega
    have hv : (-((width : Int) - 1 - ((width / 2 : Nat) : Int))) < 0 := by
      omega
    have hhi : (((n : Int)) + -((width : Int) - 1 - ((width / 2 : Nat) : Int))).toNat
        = n - (width - 1 - width / 2) := by omega
    have hlo : min (width / 2) n = width / 2 := by omega
    have hlt : width / 2 < n - (width - 1 - width / 2) := by omega
    unfold blockRetainSlice PySlice.indices
    dsimp only
    rw [if_pos hv, hhi, hlo, if_pos hlt]
    have hcount : n - (width - 1 - width / 2) - width / 2 - 1 = n - width := by
      omega
    rw [hcount, ← hdiv]
    apply List.map_congr_left
    intro k _
    omega
